import Mathlib

/-!
Verification of the StreamBuffer ring-buffer header (C++, single header).

The buffer is a fixed ring of N slots with four cursors
before_start, start, stop, after_stop, a write manager (reserve R = 1)
lending views over free space and a read manager (R = 0) lending views
over published data.  Leases are RAII views whose destruction publishes
(write) or retires (read) a region; outstanding leases are tracked as
nodes in a per-manager list, and the oldest-release advances the
published cursor.

The embedding below mirrors the header: the StreamBuffer record holds
the storage, the four cursors and the two node lists (a std::list of
cursor values; node identity is modelled by a per-manager counter so
that list iterators become stable ids).  Member functions become pure
state-passing functions.
-/

namespace Streambuf

/-- Mirrors the C++ static member get_distance:
end >= start ? end - start : N - (start - end). -/
def get_distance (N s e : Nat) : Nat := if e ≥ s then e - s else N - (s - e)

/-- Circular distance as the specification writes it: (b - a) mod N,
computed in Nat as ((N + b) - a) % N, which agrees with the integer
formula whenever a ≤ N. -/
def spec_dist (N a b : Nat) : Nat := ((N + b) - a) % N

theorem mod_split {N : Nat} (hN : 0 < N) (x : Nat) (hx : x < 2 * N) :
    x % N = if x < N then x else x - N := by
  split
  · exact Nat.mod_eq_of_lt (by assumption)
  · have h1 : N ≤ x := Nat.le_of_not_lt (by assumption)
    rw [Nat.mod_eq_sub_mod h1, Nat.mod_eq_of_lt (by omega)]

theorem gd_lt {N s e : Nat} (hN : 0 < N) (hs : s ≤ N) (he : e < N) :
    get_distance N s e < N := by
  unfold get_distance; split <;> omega

theorem gd_eq_spec_dist {N a b : Nat} (hN : 0 < N) (ha : a < N) (hb : b < N) :
    get_distance N a b = spec_dist N a b := by
  unfold get_distance spec_dist
  rw [mod_split hN _ (by omega)]
  split <;> split <;> omega

theorem gd_self {N a : Nat} : get_distance N a a = 0 := by
  unfold get_distance; simp

theorem gd_eq_zero_iff {N a b : Nat} (ha : a < N) (hb : b < N) :
    get_distance N a b = 0 ↔ a = b := by
  unfold get_distance; split <;> omega

theorem gd_add_right {N a b m : Nat} (hN : 0 < N) (ha : a < N) (hb : b < N)
    (h : get_distance N a b + m < N) :
    get_distance N a ((b + m) % N) = get_distance N a b + m := by
  have hm : m < N := by unfold get_distance at h; split at h <;> omega
  by_cases hbm : b + m < N
  · rw [Nat.mod_eq_of_lt hbm]
    unfold get_distance at h ⊢
    split at h <;> split <;> omega
  · have h2 : (b + m) % N = b + m - N := by
      rw [Nat.mod_eq_sub_mod (by omega), Nat.mod_eq_of_lt (by omega)]
    rw [h2]; unfold get_distance at h ⊢
    split at h <;> split <;> omega

theorem gd_shift_left {N a b m : Nat} (hN : 0 < N) (ha : a < N) (hb : b < N)
    (h : m ≤ get_distance N a b) :
    get_distance N ((a + m) % N) b = get_distance N a b - m := by
  have hm : m < N := by
    have := gd_lt (s := a) (e := b) hN (by omega) hb; omega
  by_cases ham : a + m < N
  · rw [Nat.mod_eq_of_lt ham]
    unfold get_distance at h ⊢
    split at h <;> split <;> omega
  · have h2 : (a + m) % N = a + m - N := by
      rw [Nat.mod_eq_sub_mod (by omega), Nat.mod_eq_of_lt (by omega)]
    rw [h2]; unfold get_distance at h ⊢
    split at h <;> split <;> omega

theorem gd_sub {N a b c : Nat} (hN : 0 < N) (ha : a < N) (hb : b < N) (hc : c < N)
    (h : get_distance N a b ≤ get_distance N a c) :
    get_distance N b c = get_distance N a c - get_distance N a b := by
  unfold get_distance at h ⊢
  split at h <;> split at h <;> split <;> omega

theorem gd_triangle {N a b c : Nat} (hN : 0 < N) (ha : a < N) (hb : b < N) (hc : c < N)
    (h : get_distance N a b + get_distance N b c < N) :
    get_distance N a c = get_distance N a b + get_distance N b c := by
  unfold get_distance at h ⊢
  split at h <;> split at h <;> split <;> omega

theorem gd_succ {N a b : Nat} (hN : 0 < N) (ha : a < N) (hb : b < N) (hab : a ≠ b) :
    get_distance N (a + 1) b = get_distance N a b - 1 := by
  unfold get_distance; split <;> split <;> omega

theorem gd_comp {N a b : Nat} (hN : 0 < N) (ha : a < N) (hb : b < N) (hab : a ≠ b) :
    get_distance N a b + get_distance N b a = N := by
  unfold get_distance; split <;> split <;> omega

theorem gd_inj {N a b c : Nat} (ha : a < N) (hb : b < N) (hc : c < N)
    (h : get_distance N a b = get_distance N a c) : b = c := by
  unfold get_distance at h; split at h <;> split at h <;> omega

theorem full_iff_gd {N s st : Nat} (hN : 0 < N) (hs : s < N) (hst : st < N) :
    ((st + 1) % N = s) ↔ get_distance N s st = N - 1 := by
  rw [mod_split hN _ (by omega)]
  unfold get_distance; split <;> split <;> omega

/-- Lease handle: the C++ owning_view carries a half-open ring range
[start, stop) and a std::list iterator to its node; the iterator is
modelled by a stable numeric id handed out by the manager. -/
structure owning_view where
  id : Nat
  start : Nat
  stop : Nat
deriving DecidableEq, Repr

/-- The StreamBuffer state: storage, the four cursors and, for each
manager, its node list (pairs of node id and recorded cursor value)
together with the id counter. -/
structure StreamBuffer (α : Type) (N : Nat) where
  storage : List α
  before_start : Nat
  start : Nat
  stop : Nat
  after_stop : Nat
  read_nodes : List (Nat × Nat)
  read_next_id : Nat
  write_nodes : List (Nat × Nat)
  write_next_id : Nat
deriving DecidableEq, Repr

variable {α : Type} {N : Nat}

namespace StreamBuffer

/-- Freshly constructed buffer: storage from the constructor arguments,
all four cursors zero, no outstanding nodes. -/
def init (s : List α) : StreamBuffer α N :=
  ⟨s, 0, 0, 0, 0, [], 0, [], 0⟩

/-- Available size computed by the write manager (R = 1):
get_distance(lendable_begin + 1, lendable_end) with lendable_begin =
after_stop and lendable_end = before_start. -/
def write_available (b : StreamBuffer α N) : Nat :=
  get_distance N (b.after_stop + 1) b.before_start

/-- Available size computed by the read manager (R = 0):
get_distance(start, stop). -/
def read_available (b : StreamBuffer α N) : Nat :=
  get_distance N b.start b.stop

/-- StreamBuffer::prepare(n) = write_manager.lend(n): throws out_of_range
when n > available, otherwise appends the current lendable_begin
(after_stop) to the node list, returns the view
[after_stop, (after_stop + n) mod N) and advances after_stop. -/
def prepare (b : StreamBuffer α N) (n : Nat) :
    Option (StreamBuffer α N × owning_view) :=
  if n > b.write_available then none
  else some ({ b with
      write_nodes := b.write_nodes ++ [(b.write_next_id, b.after_stop)],
      write_next_id := b.write_next_id + 1,
      after_stop := (b.after_stop + n) % N },
    ⟨b.write_next_id, b.after_stop, (b.after_stop + n) % N⟩)

/-- StreamBuffer::read(n) = read_manager.lend(n): throws out_of_range
when n > available, otherwise appends the current lendable_begin
(start) to the node list, returns the view
[start, (start + n) mod N) and advances start. -/
def read (b : StreamBuffer α N) (n : Nat) :
    Option (StreamBuffer α N × owning_view) :=
  if n > b.read_available then none
  else some ({ b with
      read_nodes := b.read_nodes ++ [(b.read_next_id, b.start)],
      read_next_id := b.read_next_id + 1,
      start := (b.start + n) % N },
    ⟨b.read_next_id, b.start, (b.start + n) % N⟩)

/-- StreamBuffer::read() = read_manager.lend(): lends all available
data, never fails (empty view when nothing is available). -/
def read_all (b : StreamBuffer α N) : StreamBuffer α N × owning_view :=
  let n := b.read_available
  ({ b with
      read_nodes := b.read_nodes ++ [(b.read_next_id, b.start)],
      read_next_id := b.read_next_id + 1,
      start := (b.start + n) % N },
    ⟨b.read_next_id, b.start, (b.start + n) % N⟩)

/-- Removal of the node with the given id (std::list erase through the
stored iterator; ids are unique so first-occurrence removal is exact). -/
def removeId : List (Nat × Nat) → Nat → List (Nat × Nat)
  | [], _ => []
  | p :: rest, i => if p.1 = i then rest else p :: removeId rest i

/-- Core of owning_view::~owning_view: erase the node; when the erased
node was the first (erase returned begin), set lent_begin to the new
first node value, or to lendable_begin when the list became empty.
Returns the new node list and the new lent_begin cursor. -/
def release_core (nodes : List (Nat × Nat)) (lent_begin lendable_begin i : Nat) :
    List (Nat × Nat) × Nat :=
  match nodes with
  | [] => ([], lent_begin)
  | p :: rest =>
    if p.1 = i then
      (rest, match rest with | [] => lendable_begin | q :: _ => q.2)
    else (p :: removeId rest i, lent_begin)

/-- Destruction of a write lease: the write manager has
lent_begin = stop, lendable_begin = after_stop. -/
def release_write (b : StreamBuffer α N) (v : owning_view) : StreamBuffer α N :=
  { b with
    write_nodes := (release_core b.write_nodes b.stop b.after_stop v.id).1,
    stop := (release_core b.write_nodes b.stop b.after_stop v.id).2 }

/-- Destruction of a read lease: the read manager has
lent_begin = before_start, lendable_begin = start. -/
def release_read (b : StreamBuffer α N) (v : owning_view) : StreamBuffer α N :=
  { b with
    read_nodes := (release_core b.read_nodes b.before_start b.start v.id).1,
    before_start := (release_core b.read_nodes b.before_start b.start v.id).2 }

/-- StreamBuffer::size() = get_distance(start, stop). -/
def size (b : StreamBuffer α N) : Nat := get_distance N b.start b.stop

/-- StreamBuffer::max_size() = N - 1. -/
def max_size (_ : StreamBuffer α N) : Nat := N - 1

/-- StreamBuffer::full() = ((stop + 1) % N == start). -/
def full (b : StreamBuffer α N) : Prop := (b.stop + 1) % N = b.start

instance (b : StreamBuffer α N) : Decidable b.full := by
  unfold full; infer_instance

/-- StreamBuffer::empty() = (start == stop). -/
def isEmpty (b : StreamBuffer α N) : Prop := b.start = b.stop

instance (b : StreamBuffer α N) : Decidable b.isEmpty := by
  unfold isEmpty; infer_instance

/-- StreamBuffer::front() = storage[start] (no bounds check). -/
def front [Inhabited α] (b : StreamBuffer α N) : α :=
  b.storage.getD b.start default

/-- StreamBuffer::back() = storage[(stop + N - 1) % N] (no bounds check). -/
def back [Inhabited α] (b : StreamBuffer α N) : α :=
  b.storage.getD ((b.stop + N - 1) % N) default

/-- StreamBuffer::operator[](i) = storage[(start + i) % N] (no bounds check). -/
def getIdx [Inhabited α] (b : StreamBuffer α N) (i : Nat) : α :=
  b.storage.getD ((b.start + i) % N) default

/-- StreamBuffer::at(i): check_index throws out_of_range when
i >= size(); otherwise returns operator[](i). -/
def atIdx [Inhabited α] (b : StreamBuffer α N) (i : Nat) : Option α :=
  if i ≥ b.size then none else some (b.getIdx i)

/-- StreamBuffer::clear(): sets the four cursors to zero (node lists are
untouched by the C++ clear; it requires no outstanding lease). -/
def clear (b : StreamBuffer α N) : StreamBuffer α N :=
  { b with before_start := 0, start := 0, stop := 0, after_stop := 0 }

/-- State-transformer reading of a prepare call whose exception is
caught: on failure the buffer is unchanged (the C++ constructor throws
before any mutation). -/
def prepare_st (b : StreamBuffer α N) (n : Nat) : StreamBuffer α N :=
  match b.prepare n with
  | some p => p.1
  | none => b

/-- Length of a lease as exposed by view_interface: distance between
the begin and end iterators, i.e. get_distance(start, stop). -/
def view_size (N : Nat) (v : owning_view) : Nat :=
  get_distance N v.start v.stop

/-- Element i of a lease: the iterators index storage[(start + i) % N]. -/
def view_get [Inhabited α] (b : StreamBuffer α N) (v : owning_view) (i : Nat) : α :=
  b.storage.getD ((v.start + i) % N) default

/-- Writing v[i] = x through a write lease: storage[(start + i) % N] = x. -/
def view_set (b : StreamBuffer α N) (v : owning_view) (i : Nat) (x : α) :
    StreamBuffer α N :=
  { b with storage := b.storage.set ((v.start + i) % N) x }

/-- The sequence a lease denotes, read element by element. -/
def view_to_list [Inhabited α] (b : StreamBuffer α N) (v : owning_view) : List α :=
  (List.range (view_size N v)).map (fun i => view_get b v i)

/-- Fill a lease in place starting at element offset i. -/
def fill_from (b : StreamBuffer α N) (v : owning_view) :
    Nat → List α → StreamBuffer α N
  | _, [] => b
  | i, x :: xs => fill_from (view_set b v i x) v (i + 1) xs

/-- Fill a lease in place with the given data (v[0] = d0, v[1] = d1, ...). -/
def fill (b : StreamBuffer α N) (v : owning_view) (d : List α) : StreamBuffer α N :=
  fill_from b v 0 d

/-- Move construction of a lease: the fresh target starts inert
(null manager) and swaps with the source; result is
(new target contents, new source contents). -/
def move_construct (src : Option owning_view) :
    Option owning_view × Option owning_view :=
  (src, none)

/-- Move assignment of a lease: operator=(owning_view &&) swaps the two
handles; result is (new target contents, new source contents). -/
def move_assign (tgt src : Option owning_view) :
    Option owning_view × Option owning_view :=
  (src, tgt)

/-- Destruction of a (possibly inert) write-lease handle: a lease whose
manager pointer is null does nothing; otherwise the release protocol runs. -/
def destroy_write (b : StreamBuffer α N) : Option owning_view → StreamBuffer α N
  | none => b
  | some v => b.release_write v

/-- Destruction of a (possibly inert) read-lease handle. -/
def destroy_read (b : StreamBuffer α N) : Option owning_view → StreamBuffer α N
  | none => b
  | some v => b.release_read v

/-- Sequentially acquire one write lease per requested size. -/
def prepareAll : StreamBuffer α N → List Nat →
    Option (StreamBuffer α N × List owning_view)
  | b, [] => some (b, [])
  | b, n :: ns =>
    match b.prepare n with
    | none => none
    | some (b', v) =>
      match prepareAll b' ns with
      | none => none
      | some (b'', vs) => some (b'', v :: vs)

/-- Fill each lease with the corresponding data block. -/
def fillAll : StreamBuffer α N → List owning_view → List (List α) →
    StreamBuffer α N
  | b, [], _ => b
  | b, _ :: _, [] => b
  | b, v :: vs, d :: ds => fillAll (fill b v d) vs ds

/-- Release write leases in the given order. -/
def releaseAll (b : StreamBuffer α N) (vs : List owning_view) : StreamBuffer α N :=
  vs.foldl release_write b

/-- The views a run of successful sequential prepares produces when no
wrap-around occurs: ids counted from i, ranges chained from cursor t. -/
def mkViews : Nat → Nat → List Nat → List owning_view
  | _, _, [] => []
  | t, i, n :: ns => ⟨i, t, t + n⟩ :: mkViews (t + n) (i + 1) ns

end StreamBuffer

/-- A configuration: the buffer together with the outstanding (live,
non-inert) write and read leases, in acquisition order. -/
structure Config (α : Type) (N : Nat) where
  buf : StreamBuffer α N
  live_w : List owning_view
  live_r : List owning_view

/-- One public operation of the library.  Failed synchronous acquires
leave the state unchanged and need no step; clear requires no
outstanding lease (undefined behaviour otherwise per the header's
contract). -/
inductive Step : Config α N → Config α N → Prop where
  | prepare_ok {b b' : StreamBuffer α N} {v n ws rs} :
      b.prepare n = some (b', v) →
      Step ⟨b, ws, rs⟩ ⟨b', ws ++ [v], rs⟩
  | read_ok {b b' : StreamBuffer α N} {v n ws rs} :
      b.read n = some (b', v) →
      Step ⟨b, ws, rs⟩ ⟨b', ws, rs ++ [v]⟩
  | read_all_step {b : StreamBuffer α N} {ws rs} :
      Step ⟨b, ws, rs⟩ ⟨b.read_all.1, ws, rs ++ [b.read_all.2]⟩
  | release_w {b : StreamBuffer α N} {ws rs v pre post} :
      ws = pre ++ v :: post →
      Step ⟨b, ws, rs⟩ ⟨b.release_write v, pre ++ post, rs⟩
  | release_r {b : StreamBuffer α N} {ws rs v pre post} :
      rs = pre ++ v :: post →
      Step ⟨b, ws, rs⟩ ⟨b.release_read v, ws, pre ++ post⟩
  | write_elem {b : StreamBuffer α N} {ws rs v i x} :
      v ∈ ws →
      Step ⟨b, ws, rs⟩ ⟨StreamBuffer.view_set b v i x, ws, rs⟩
  | clear_step {b : StreamBuffer α N} {ws rs} :
      ws = [] → rs = [] →
      Step ⟨b, ws, rs⟩ ⟨b.clear, [], []⟩

/-- States reachable from a freshly constructed buffer by public
operations. -/
inductive Reachable : Config α N → Prop where
  | init (s : List α) : Reachable ⟨StreamBuffer.init s, [], []⟩
  | step {c c' : Config α N} : Reachable c → Step c c' → Reachable c'

/-- All four cursors lie in [0, N). -/
def InBounds (b : StreamBuffer α N) : Prop :=
  b.before_start < N ∧ b.start < N ∧ b.stop < N ∧ b.after_stop < N

instance (b : StreamBuffer α N) : Decidable (InBounds b) := by
  unfold InBounds; infer_instance

/-- All four cursors coincide (freshly constructed or fully drained). -/
def AllEq (b : StreamBuffer α N) : Prop :=
  b.before_start = b.start ∧ b.start = b.stop ∧ b.stop = b.after_stop

instance (b : StreamBuffer α N) : Decidable (AllEq b) := by
  unfold AllEq; infer_instance

/-- The sum of the four consecutive cursor distances, using the code's
get_distance. -/
def cycle_sum (b : StreamBuffer α N) : Nat :=
  get_distance N b.before_start b.start + get_distance N b.start b.stop +
  get_distance N b.stop b.after_stop + get_distance N b.after_stop b.before_start

/-- The same sum written with the specification's dist(a,b) = (b-a) mod N. -/
def spec_cycle_sum (b : StreamBuffer α N) : Nat :=
  spec_dist N b.before_start b.start + spec_dist N b.start b.stop +
  spec_dist N b.stop b.after_stop + spec_dist N b.after_stop b.before_start

/-- Cursor ordering invariant: either all four cursors coincide, or the
four gaps partition the ring and at least the anti-aliasing slot keeps
after_stop away from before_start. -/
def CursorInv (b : StreamBuffer α N) : Prop :=
  AllEq b ∨ (cycle_sum b = N ∧ b.after_stop ≠ b.before_start)

instance (b : StreamBuffer α N) : Decidable (CursorInv b) := by
  unfold CursorInv; infer_instance

/-- Manager list invariant for a manager with cursors
(lent_begin, lendable_begin): an empty list pins lent_begin to
lendable_begin; otherwise the first node records lent_begin; node
values sit in ring order between lent_begin and lendable_begin. -/
def MInv (N lent_begin lendable_begin : Nat) (nodes : List (Nat × Nat)) : Prop :=
  (nodes = [] → lent_begin = lendable_begin) ∧
  (∀ p, nodes.head? = some p → p.2 = lent_begin) ∧
  nodes.Pairwise (fun p q =>
    get_distance N lent_begin p.2 ≤ get_distance N lent_begin q.2) ∧
  ∀ p ∈ nodes, p.2 < N ∧
    get_distance N lent_begin p.2 ≤ get_distance N lent_begin lendable_begin

/-- Full inductive invariant of a configuration. -/
structure WF (c : Config α N) : Prop where
  bs_lt : c.buf.before_start < N
  s_lt : c.buf.start < N
  st_lt : c.buf.stop < N
  as_lt : c.buf.after_stop < N
  cinv : CursorInv c.buf
  w_minv : MInv N c.buf.stop c.buf.after_stop c.buf.write_nodes
  r_minv : MInv N c.buf.before_start c.buf.start c.buf.read_nodes
  w_ids : c.buf.write_nodes.map Prod.fst = c.live_w.map owning_view.id
  r_ids : c.buf.read_nodes.map Prod.fst = c.live_r.map owning_view.id
  w_nodup : (c.live_w.map owning_view.id).Nodup
  r_nodup : (c.live_r.map owning_view.id).Nodup
  w_bound : ∀ v ∈ c.live_w, owning_view.id v < c.buf.write_next_id
  r_bound : ∀ v ∈ c.live_r, owning_view.id v < c.buf.read_next_id

theorem gd_succ_self {N a : Nat} (ha : a < N) : get_distance N (a + 1) a = N - 1 := by
  unfold get_distance; split <;> omega

open StreamBuffer

theorem removeId_sublist (nodes : List (Nat × Nat)) (i : Nat) :
    (removeId nodes i).Sublist nodes := by
  induction nodes with
  | nil => simp [removeId]
  | cons p rest ih =>
    unfold removeId
    split
    · exact List.sublist_cons_self p rest
    · exact ih.cons₂ p

theorem minv_release {N lb ld i : Nat} {nodes : List (Nat × Nat)}
    (hN : 0 < N) (hlb : lb < N) (hld : ld < N) (hm : MInv N lb ld nodes) :
    MInv N (release_core nodes lb ld i).2 ld (release_core nodes lb ld i).1 ∧
    (release_core nodes lb ld i).2 < N ∧
    get_distance N lb (release_core nodes lb ld i).2 ≤ get_distance N lb ld := by
  obtain ⟨he, hh, hp, hb⟩ := hm
  cases nodes with
  | nil =>
    simp only [release_core]
    exact ⟨⟨fun _ => he rfl, by simp, by simp, by simp⟩, hlb, by simp [gd_self]⟩
  | cons p rest =>
    by_cases hpi : p.1 = i
    · cases rest with
      | nil =>
        simp only [release_core, if_pos hpi]
        exact ⟨⟨fun _ => rfl, by simp, by simp, by simp⟩, hld, Nat.le_refl _⟩
      | cons q rest2 =>
        have hq_mem : q ∈ p :: q :: rest2 := by simp
        have hqN : q.2 < N := (hb q hq_mem).1
        have hq_le : get_distance N lb q.2 ≤ get_distance N lb ld := (hb q hq_mem).2
        have hfront : ∀ x ∈ q :: rest2,
            get_distance N lb q.2 ≤ get_distance N lb x.2 := by
          intro x hx
          rcases List.mem_cons.mp hx with hx1 | hx2
          · subst hx1; exact Nat.le_refl _
          · exact (List.pairwise_cons.mp hp.of_cons).1 x hx2
        simp only [release_core, if_pos hpi]
        refine ⟨⟨?_, ?_, ?_, ?_⟩, hqN, hq_le⟩
        · intro hEq; cases hEq
        · intro r hr
          simp only [List.head?] at hr
          cases hr; rfl
        · refine List.Pairwise.imp_of_mem ?_ hp.of_cons
          intro x y hx hy hxy
          have hx2 : x.2 < N := (hb x (List.mem_cons_of_mem p hx)).1
          have hy2 : y.2 < N := (hb y (List.mem_cons_of_mem p hy)).1
          have h1 : get_distance N q.2 x.2 =
              get_distance N lb x.2 - get_distance N lb q.2 :=
            gd_sub hN hlb hqN hx2 (hfront x hx)
          have h2 : get_distance N q.2 y.2 =
              get_distance N lb y.2 - get_distance N lb q.2 :=
            gd_sub hN hlb hqN hy2 (hfront y hy)
          rw [h1, h2]; omega
        · intro x hx
          have hxm : x ∈ p :: q :: rest2 := List.mem_cons_of_mem p hx
          have hx2 : x.2 < N := (hb x hxm).1
          refine ⟨hx2, ?_⟩
          have h1 : get_distance N q.2 x.2 =
              get_distance N lb x.2 - get_distance N lb q.2 :=
            gd_sub hN hlb hqN hx2 (hfront x hx)
          have h2 : get_distance N q.2 ld =
              get_distance N lb ld - get_distance N lb q.2 :=
            gd_sub hN hlb hqN hld hq_le
          have h3 := (hb x hxm).2
          rw [h1, h2]; omega
    · simp only [release_core, if_neg hpi]
      have hsub : (p :: removeId rest i).Sublist (p :: rest) :=
        (removeId_sublist rest i).cons₂ p
      refine ⟨⟨?_, ?_, hp.sublist hsub, ?_⟩, hlb, by simp [gd_self]⟩
      · intro hEq; cases hEq
      · intro r hr
        simp only [List.head?] at hr
        cases hr; exact hh p rfl
      · intro x hx
        exact hb x (hsub.subset hx)

theorem removeId_ids :
    ∀ (pre : List owning_view) (nodes : List (Nat × Nat)) {post : List owning_view}
      {v : owning_view},
    nodes.map Prod.fst = (pre ++ v :: post).map owning_view.id →
    ((pre ++ v :: post).map owning_view.id).Nodup →
    (removeId nodes v.id).map Prod.fst = (pre ++ post).map owning_view.id := by
  intro pre
  induction pre with
  | nil =>
    intro nodes post v hmap hnd
    cases nodes with
    | nil => simp at hmap
    | cons p nt =>
      simp only [List.map_cons, List.nil_append, List.cons.injEq] at hmap
      obtain ⟨h1, h2⟩ := hmap
      simp [removeId, h1, h2]
  | cons hd pre2 ih =>
    intro nodes post v hmap hnd
    cases nodes with
    | nil => simp at hmap
    | cons p nt =>
      simp only [List.cons_append, List.map_cons, List.cons.injEq] at hmap
      obtain ⟨h1, h2⟩ := hmap
      simp only [List.cons_append, List.map_cons, List.nodup_cons] at hnd
      have hne : p.1 ≠ v.id := by
        rw [h1]
        intro hEq
        exact hnd.1 (hEq ▸ (by simp : owning_view.id v ∈ (pre2 ++ v :: post).map owning_view.id))
      simp only [removeId, if_neg hne, List.map_cons, List.cons_append, List.cons.injEq]
      exact ⟨h1, ih nt h2 hnd.2⟩

theorem release_core_ids {lb ld : Nat}
    (pre : List owning_view) (nodes : List (Nat × Nat)) {post : List owning_view}
    {v : owning_view}
    (hmap : nodes.map Prod.fst = (pre ++ v :: post).map owning_view.id)
    (hnd : ((pre ++ v :: post).map owning_view.id).Nodup) :
    (release_core nodes lb ld v.id).1.map Prod.fst =
      (pre ++ post).map owning_view.id := by
  cases pre with
  | nil =>
    cases nodes with
    | nil => simp at hmap
    | cons p nt =>
      simp only [List.map_cons, List.nil_append, List.cons.injEq] at hmap
      obtain ⟨h1, h2⟩ := hmap
      cases nt with
      | nil => simp only [release_core, if_pos h1]; simpa using h2
      | cons q nt2 => simp only [release_core, if_pos h1]; simpa using h2
  | cons hd pre2 =>
    cases nodes with
    | nil => simp at hmap
    | cons p nt =>
      simp only [List.cons_append, List.map_cons, List.cons.injEq] at hmap
      obtain ⟨h1, h2⟩ := hmap
      have hnd' := hnd
      simp only [List.cons_append, List.map_cons, List.nodup_cons] at hnd'
      have hne : p.1 ≠ v.id := by
        rw [h1]
        intro hEq
        exact hnd'.1 (hEq ▸ (by simp : owning_view.id v ∈ (pre2 ++ v :: post).map owning_view.id))
      simp only [release_core, if_neg hne, List.map_cons, List.cons_append, List.cons.injEq]
      exact ⟨h1, removeId_ids pre2 nt h2 hnd'.2⟩

theorem wf_prepare {α : Type} {N : Nat} {c : Config α N} {n : Nat}
    {b' : StreamBuffer α N} {v : owning_view}
    (hN : 0 < N) (h : WF c) (hp : c.buf.prepare n = some (b', v)) :
    WF ⟨b', c.live_w ++ [v], c.live_r⟩ := by
  obtain ⟨b, ws, rs⟩ := c
  have hbs : b.before_start < N := h.bs_lt
  have hs : b.start < N := h.s_lt
  have hst : b.stop < N := h.st_lt
  have has : b.after_stop < N := h.as_lt
  have hci : CursorInv b := h.cinv
  have hwm : MInv N b.stop b.after_stop b.write_nodes := h.w_minv
  have hrm : MInv N b.before_start b.start b.read_nodes := h.r_minv
  have hwi : b.write_nodes.map Prod.fst = ws.map owning_view.id := h.w_ids
  have hri : b.read_nodes.map Prod.fst = rs.map owning_view.id := h.r_ids
  have hwn : (ws.map owning_view.id).Nodup := h.w_nodup
  have hrn : (rs.map owning_view.id).Nodup := h.r_nodup
  have hwb : ∀ v' ∈ ws, owning_view.id v' < b.write_next_id := h.w_bound
  have hrb : ∀ v' ∈ rs, owning_view.id v' < b.read_next_id := h.r_bound
  unfold StreamBuffer.prepare at hp
  split at hp
  · exact absurd hp (by simp)
  rename_i hn
  rw [Option.some.injEq, Prod.mk.injEq] at hp
  obtain ⟨hb', hv⟩ := hp
  subst hb' hv
  have hn' : n ≤ b.write_available := Nat.le_of_not_lt hn
  have hK : get_distance N b.stop b.after_stop + n < N := by
    rcases hci with ⟨e1, e2, e3⟩ | ⟨hsum, hne⟩
    · have e4 : b.after_stop = b.before_start := by omega
      have havail : b.write_available = N - 1 := by
        unfold StreamBuffer.write_available
        rw [e4]
        exact gd_succ_self hbs
      have hz : get_distance N b.stop b.after_stop = 0 := by
        rw [e3]; exact gd_self
      omega
    · have hAvail : b.write_available = get_distance N b.after_stop b.before_start - 1 := by
        unfold StreamBuffer.write_available
        exact gd_succ hN has hbs hne
      have h0 : get_distance N b.after_stop b.before_start ≠ 0 :=
        fun hz => hne ((gd_eq_zero_iff has hbs).mp hz)
      unfold cycle_sum at hsum
      rw [hAvail] at hn'
      omega
  have hDst : get_distance N b.stop ((b.after_stop + n) % N) =
      get_distance N b.stop b.after_stop + n := gd_add_right hN hst has hK
  have hcinv : CursorInv (⟨b.storage, b.before_start, b.start, b.stop,
      (b.after_stop + n) % N, b.read_nodes, b.read_next_id,
      b.write_nodes ++ [(b.write_next_id, b.after_stop)], b.write_next_id + 1⟩ :
        StreamBuffer α N) := by
    rcases hci with ⟨e1, e2, e3⟩ | ⟨hsum, hne⟩
    · by_cases hn0 : n = 0
      · left
        subst hn0
        exact ⟨e1, e2, by simpa [Nat.mod_eq_of_lt has] using e3⟩
      · right
        have e4 : b.after_stop = b.before_start := by omega
        have hz : get_distance N b.stop b.after_stop = 0 := by rw [e3]; exact gd_self
        have h5 : get_distance N b.after_stop ((b.after_stop + n) % N) = n := by
          have := gd_add_right (a := b.after_stop) (b := b.after_stop) (m := n) hN has has
            (by rw [gd_self]; omega)
          rw [gd_self] at this
          simpa using this
        have hlt : (b.after_stop + n) % N < N := Nat.mod_lt _ hN
        have hne2 : b.after_stop ≠ (b.after_stop + n) % N := by
          intro hEq
          rw [← hEq, gd_self] at h5
          omega
        have hcomp := gd_comp hN has hlt hne2
        constructor
        · unfold cycle_sum
          simp only
          have hz1 : get_distance N b.before_start b.start = 0 := by rw [e1]; exact gd_self
          have hz2 : get_distance N b.start b.stop = 0 := by rw [e2]; exact gd_self
          have hz3 : get_distance N b.stop ((b.after_stop + n) % N) = n := by
            rw [hDst, hz]; omega
          have hz4 : get_distance N ((b.after_stop + n) % N) b.before_start = N - n := by
            rw [← e4]; omega
          rw [hz1, hz2, hz3, hz4]
          omega
        · simp only
          rw [← e4]
          exact fun hEq => hne2 hEq.symm
    · have hAvail : b.write_available = get_distance N b.after_stop b.before_start - 1 := by
        unfold StreamBuffer.write_available
        exact gd_succ hN has hbs hne
      have h0 : get_distance N b.after_stop b.before_start ≠ 0 :=
        fun hz => hne ((gd_eq_zero_iff has hbs).mp hz)
      have hn2 : n + 1 ≤ get_distance N b.after_stop b.before_start := by
        rw [hAvail] at hn'; omega
      have hshift : get_distance N ((b.after_stop + n) % N) b.before_start =
          get_distance N b.after_stop b.before_start - n :=
        gd_shift_left hN has hbs (by omega)
      right
      constructor
      · unfold cycle_sum at hsum ⊢
        simp only
        rw [hDst, hshift]
        omega
      · simp only
        intro hEq
        rw [hEq, gd_self] at hshift
        omega
  obtain ⟨we, wh, wp, wb⟩ := hwm
  refine ⟨hbs, hs, hst, Nat.mod_lt _ hN, hcinv, ⟨?_, ?_, ?_, ?_⟩, hrm,
    ?_, hri, ?_, hrn, ?_, hrb⟩
  · intro hemp; simp at hemp
  · intro p hp2
    cases hnod : b.write_nodes with
    | nil =>
      rw [hnod] at hp2
      simp only [List.nil_append, List.head?, Option.some.injEq] at hp2
      rw [← hp2]
      exact (we hnod).symm
    | cons p0 nt =>
      rw [hnod] at hp2
      simp only [List.cons_append, List.head?, Option.some.injEq] at hp2
      rw [← hp2]
      exact wh p0 (by rw [hnod]; rfl)
  · rw [List.pairwise_append]
    refine ⟨wp, by simp, ?_⟩
    intro p hp2 q hq2
    simp only [List.mem_singleton] at hq2
    subst hq2
    exact (wb p hp2).2
  · intro p hp2
    rcases List.mem_append.mp hp2 with hp3 | hp3
    · obtain ⟨hlt2, hle2⟩ := wb p hp3
      refine ⟨hlt2, ?_⟩
      show get_distance N b.stop p.2 ≤ get_distance N b.stop ((b.after_stop + n) % N)
      rw [hDst]; omega
    · simp only [List.mem_singleton] at hp3
      subst hp3
      refine ⟨has, ?_⟩
      show get_distance N b.stop b.after_stop ≤
        get_distance N b.stop ((b.after_stop + n) % N)
      rw [hDst]; omega
  · simp only [List.map_append, List.map_cons, List.map_nil]
    rw [hwi]
  · simp only [List.map_append, List.map_cons, List.map_nil]
    rw [List.nodup_append]
    refine ⟨hwn, by simp, ?_⟩
    intro a ha hb2
    simp only [List.mem_singleton] at hb2
    subst hb2
    obtain ⟨w, hw, hwid⟩ := List.mem_map.mp ha
    have := hwb w hw
    omega
  · intro v' hv'
    show owning_view.id v' < b.write_next_id + 1
    rcases List.mem_append.mp hv' with hv2 | hv2
    · have := hwb v' hv2
      omega
    · simp only [List.mem_singleton] at hv2
      subst hv2
      simp

theorem wf_read_core {c : Config α N} {n : Nat}
    (hN : 0 < N) (h : WF c) (hn : n ≤ c.buf.read_available) :
    WF (⟨(⟨c.buf.storage, c.buf.before_start, (c.buf.start + n) % N, c.buf.stop,
        c.buf.after_stop, c.buf.read_nodes ++ [(c.buf.read_next_id, c.buf.start)],
        c.buf.read_next_id + 1, c.buf.write_nodes, c.buf.write_next_id⟩ :
          StreamBuffer α N),
      c.live_w,
      c.live_r ++ [⟨c.buf.read_next_id, c.buf.start, (c.buf.start + n) % N⟩]⟩ :
        Config α N) := by
  obtain ⟨b, ws, rs⟩ := c
  have hbs : b.before_start < N := h.bs_lt
  have hs : b.start < N := h.s_lt
  have hst : b.stop < N := h.st_lt
  have has : b.after_stop < N := h.as_lt
  have hci : CursorInv b := h.cinv
  have hwm : MInv N b.stop b.after_stop b.write_nodes := h.w_minv
  have hrm : MInv N b.before_start b.start b.read_nodes := h.r_minv
  have hwi : b.write_nodes.map Prod.fst = ws.map owning_view.id := h.w_ids
  have hri : b.read_nodes.map Prod.fst = rs.map owning_view.id := h.r_ids
  have hwn : (ws.map owning_view.id).Nodup := h.w_nodup
  have hrn : (rs.map owning_view.id).Nodup := h.r_nodup
  have hwb : ∀ v' ∈ ws, owning_view.id v' < b.write_next_id := h.w_bound
  have hrb : ∀ v' ∈ rs, owning_view.id v' < b.read_next_id := h.r_bound
  have hn2 : n ≤ get_distance N b.start b.stop := hn
  have hKr : get_distance N b.before_start b.start + n < N := by
    rcases hci with ⟨e1, e2, e3⟩ | ⟨hsum, hne⟩
    · have hz : get_distance N b.start b.stop = 0 := by rw [e2]; exact gd_self
      have hz2 : get_distance N b.before_start b.start = 0 := by rw [e1]; exact gd_self
      omega
    · have h0 : get_distance N b.after_stop b.before_start ≠ 0 :=
        fun hz => hne ((gd_eq_zero_iff has hbs).mp hz)
      unfold cycle_sum at hsum
      omega
  have hDs : get_distance N b.before_start ((b.start + n) % N) =
      get_distance N b.before_start b.start + n := gd_add_right hN hbs hs hKr
  have hSh : get_distance N ((b.start + n) % N) b.stop =
      get_distance N b.start b.stop - n := gd_shift_left hN hs hst hn2
  have hcinv : CursorInv (⟨b.storage, b.before_start, (b.start + n) % N, b.stop,
      b.after_stop, b.read_nodes ++ [(b.read_next_id, b.start)],
      b.read_next_id + 1, b.write_nodes, b.write_next_id⟩ : StreamBuffer α N) := by
    rcases hci with ⟨e1, e2, e3⟩ | ⟨hsum, hne⟩
    · left
      have hz : get_distance N b.start b.stop = 0 := by rw [e2]; exact gd_self
      have hn0 : n = 0 := by omega
      subst hn0
      exact ⟨by simpa [Nat.mod_eq_of_lt hs] using e1,
        by simpa [Nat.mod_eq_of_lt hs] using e2, e3⟩
    · right
      constructor
      · unfold cycle_sum at hsum ⊢
        simp only
        rw [hDs, hSh]
        omega
      · exact hne
  obtain ⟨re, rh, rp, rb⟩ := hrm
  refine ⟨hbs, Nat.mod_lt _ hN, hst, has, hcinv, hwm, ⟨?_, ?_, ?_, ?_⟩,
    hwi, ?_, hwn, ?_, hwb, ?_⟩
  · intro hemp; simp at hemp
  · intro p hp2
    cases hnod : b.read_nodes with
    | nil =>
      rw [hnod] at hp2
      simp only [List.nil_append, List.head?, Option.some.injEq] at hp2
      rw [← hp2]
      exact (re hnod).symm
    | cons p0 nt =>
      rw [hnod] at hp2
      simp only [List.cons_append, List.head?, Option.some.injEq] at hp2
      rw [← hp2]
      exact rh p0 (by rw [hnod]; rfl)
  · rw [List.pairwise_append]
    refine ⟨rp, by simp, ?_⟩
    intro p hp2 q hq2
    simp only [List.mem_singleton] at hq2
    subst hq2
    exact (rb p hp2).2
  · intro p hp2
    rcases List.mem_append.mp hp2 with hp3 | hp3
    · obtain ⟨hlt2, hle2⟩ := rb p hp3
      refine ⟨hlt2, ?_⟩
      show get_distance N b.before_start p.2 ≤
        get_distance N b.before_start ((b.start + n) % N)
      rw [hDs]; omega
    · simp only [List.mem_singleton] at hp3
      subst hp3
      refine ⟨hs, ?_⟩
      show get_distance N b.before_start b.start ≤
        get_distance N b.before_start ((b.start + n) % N)
      rw [hDs]; omega
  · simp only [List.map_append, List.map_cons, List.map_nil]
    rw [hri]
  · simp only [List.map_append, List.map_cons, List.map_nil]
    rw [List.nodup_append]
    refine ⟨hrn, by simp, ?_⟩
    intro a ha hb2
    simp only [List.mem_singleton] at hb2
    subst hb2
    obtain ⟨w, hw, hwid⟩ := List.mem_map.mp ha
    have := hrb w hw
    omega
  · intro v' hv'
    show owning_view.id v' < b.read_next_id + 1
    rcases List.mem_append.mp hv' with hv2 | hv2
    · have := hrb v' hv2
      omega
    · simp only [List.mem_singleton] at hv2
      subst hv2
      simp

theorem wf_read {c : Config α N} {n : Nat} {b' : StreamBuffer α N} {v : owning_view}
    (hN : 0 < N) (h : WF c) (hp : c.buf.read n = some (b', v)) :
    WF ⟨b', c.live_w, c.live_r ++ [v]⟩ := by
  unfold StreamBuffer.read at hp
  split at hp
  · exact absurd hp (by simp)
  rename_i hn
  rw [Option.some.injEq, Prod.mk.injEq] at hp
  obtain ⟨hb', hv⟩ := hp
  subst hb' hv
  exact wf_read_core hN h (Nat.le_of_not_lt hn)

theorem wf_read_all {c : Config α N} (hN : 0 < N) (h : WF c) :
    WF ⟨c.buf.read_all.1, c.live_w, c.live_r ++ [c.buf.read_all.2]⟩ :=
  wf_read_core hN h (Nat.le_refl _)

theorem wf_release_w {c : Config α N} {v : owning_view} {pre post : List owning_view}
    (hN : 0 < N) (h : WF c) (hws : c.live_w = pre ++ v :: post) :
    WF ⟨c.buf.release_write v, pre ++ post, c.live_r⟩ := by
  obtain ⟨b, ws, rs⟩ := c
  have hbs : b.before_start < N := h.bs_lt
  have hs : b.start < N := h.s_lt
  have hst : b.stop < N := h.st_lt
  have has : b.after_stop < N := h.as_lt
  have hci : CursorInv b := h.cinv
  have hwm : MInv N b.stop b.after_stop b.write_nodes := h.w_minv
  have hrm : MInv N b.before_start b.start b.read_nodes := h.r_minv
  have hwi : b.write_nodes.map Prod.fst = ws.map owning_view.id := h.w_ids
  have hri : b.read_nodes.map Prod.fst = rs.map owning_view.id := h.r_ids
  have hwn : (ws.map owning_view.id).Nodup := h.w_nodup
  have hrn : (rs.map owning_view.id).Nodup := h.r_nodup
  have hwb : ∀ v' ∈ ws, owning_view.id v' < b.write_next_id := h.w_bound
  have hrb : ∀ v' ∈ rs, owning_view.id v' < b.read_next_id := h.r_bound
  simp only at hws
  subst hws
  obtain ⟨hm', hlt', hle'⟩ :=
    minv_release (i := v.id) hN hst has hwm
  have hsubl : (pre ++ post).Sublist (pre ++ v :: post) :=
    (List.sublist_cons_self v post).append_left pre
  have hcinv : CursorInv (⟨b.storage, b.before_start, b.start,
      (release_core b.write_nodes b.stop b.after_stop v.id).2, b.after_stop,
      b.read_nodes, b.read_next_id,
      (release_core b.write_nodes b.stop b.after_stop v.id).1,
      b.write_next_id⟩ : StreamBuffer α N) := by
    rcases hci with ⟨e1, e2, e3⟩ | ⟨hsum, hne⟩
    · have hz : get_distance N b.stop b.after_stop = 0 := by rw [e3]; exact gd_self
      have hz2 : get_distance N b.stop
          (release_core b.write_nodes b.stop b.after_stop v.id).2 = 0 := by omega
      have heq : (release_core b.write_nodes b.stop b.after_stop v.id).2 = b.stop :=
        ((gd_eq_zero_iff hst hlt').mp hz2).symm
      left
      refine ⟨e1, ?_, ?_⟩
      · show b.start = (release_core b.write_nodes b.stop b.after_stop v.id).2
        rw [heq]; exact e2
      · show (release_core b.write_nodes b.stop b.after_stop v.id).2 = b.after_stop
        rw [heq]; exact e3
    · have h0 : get_distance N b.after_stop b.before_start ≠ 0 :=
        fun hz => hne ((gd_eq_zero_iff has hbs).mp hz)
      have hlt2 : get_distance N b.start b.stop + get_distance N b.stop
          (release_core b.write_nodes b.stop b.after_stop v.id).2 < N := by
        unfold cycle_sum at hsum
        omega
      have htri : get_distance N b.start
          (release_core b.write_nodes b.stop b.after_stop v.id).2 =
          get_distance N b.start b.stop + get_distance N b.stop
            (release_core b.write_nodes b.stop b.after_stop v.id).2 :=
        gd_triangle hN hs hst hlt' hlt2
      have hsub2 : get_distance N
          (release_core b.write_nodes b.stop b.after_stop v.id).2 b.after_stop =
          get_distance N b.stop b.after_stop - get_distance N b.stop
            (release_core b.write_nodes b.stop b.after_stop v.id).2 :=
        gd_sub hN hst hlt' has hle'
      right
      constructor
      · unfold cycle_sum at hsum ⊢
        simp only
        rw [htri, hsub2]
        omega
      · exact hne
  refine ⟨hbs, hs, hlt', has, hcinv, hm', hrm, ?_, hri, ?_, hrn, ?_, hrb⟩
  · exact release_core_ids pre b.write_nodes hwi hwn
  · exact hwn.sublist (hsubl.map owning_view.id)
  · intro v' hv'
    exact hwb v' (hsubl.subset hv')

theorem wf_release_r {c : Config α N} {v : owning_view} {pre post : List owning_view}
    (hN : 0 < N) (h : WF c) (hrs : c.live_r = pre ++ v :: post) :
    WF ⟨c.buf.release_read v, c.live_w, pre ++ post⟩ := by
  obtain ⟨b, ws, rs⟩ := c
  have hbs : b.before_start < N := h.bs_lt
  have hs : b.start < N := h.s_lt
  have hst : b.stop < N := h.st_lt
  have has : b.after_stop < N := h.as_lt
  have hci : CursorInv b := h.cinv
  have hwm : MInv N b.stop b.after_stop b.write_nodes := h.w_minv
  have hrm : MInv N b.before_start b.start b.read_nodes := h.r_minv
  have hwi : b.write_nodes.map Prod.fst = ws.map owning_view.id := h.w_ids
  have hri : b.read_nodes.map Prod.fst = rs.map owning_view.id := h.r_ids
  have hwn : (ws.map owning_view.id).Nodup := h.w_nodup
  have hrn : (rs.map owning_view.id).Nodup := h.r_nodup
  have hwb : ∀ v' ∈ ws, owning_view.id v' < b.write_next_id := h.w_bound
  have hrb : ∀ v' ∈ rs, owning_view.id v' < b.read_next_id := h.r_bound
  simp only at hrs
  subst hrs
  obtain ⟨hm', hlt', hle'⟩ :=
    minv_release (i := v.id) hN hbs hs hrm
  have hsubl : (pre ++ post).Sublist (pre ++ v :: post) :=
    (List.sublist_cons_self v post).append_left pre
  have hcinv : CursorInv (⟨b.storage,
      (release_core b.read_nodes b.before_start b.start v.id).2, b.start,
      b.stop, b.after_stop,
      (release_core b.read_nodes b.before_start b.start v.id).1,
      b.read_next_id, b.write_nodes, b.write_next_id⟩ : StreamBuffer α N) := by
    rcases hci with ⟨e1, e2, e3⟩ | ⟨hsum, hne⟩
    · have hz : get_distance N b.before_start b.start = 0 := by rw [e1]; exact gd_self
      have hz2 : get_distance N b.before_start
          (release_core b.read_nodes b.before_start b.start v.id).2 = 0 := by omega
      have heq : (release_core b.read_nodes b.before_start b.start v.id).2 =
          b.before_start := ((gd_eq_zero_iff hbs hlt').mp hz2).symm
      left
      refine ⟨?_, e2, e3⟩
      show (release_core b.read_nodes b.before_start b.start v.id).2 = b.start
      rw [heq]; exact e1
    · have h0 : get_distance N b.after_stop b.before_start ≠ 0 :=
        fun hz => hne ((gd_eq_zero_iff has hbs).mp hz)
      by_cases hcol : get_distance N b.after_stop b.before_start +
          get_distance N b.before_start
            (release_core b.read_nodes b.before_start b.start v.id).2 = N
      · left
        unfold cycle_sum at hsum
        have he1 : get_distance N b.before_start
            (release_core b.read_nodes b.before_start b.start v.id).2 =
            get_distance N b.before_start b.start := by omega
        have he2 : get_distance N b.start b.stop = 0 := by omega
        have he3 : get_distance N b.stop b.after_stop = 0 := by omega
        have heq : (release_core b.read_nodes b.before_start b.start v.id).2 =
            b.start := gd_inj hbs hlt' hs he1
        exact ⟨heq, (gd_eq_zero_iff hs hst).mp he2, (gd_eq_zero_iff hst has).mp he3⟩
      · have hlt2 : get_distance N b.after_stop b.before_start +
            get_distance N b.before_start
              (release_core b.read_nodes b.before_start b.start v.id).2 < N := by
          unfold cycle_sum at hsum
          omega
        have htri : get_distance N b.after_stop
            (release_core b.read_nodes b.before_start b.start v.id).2 =
            get_distance N b.after_stop b.before_start +
              get_distance N b.before_start
                (release_core b.read_nodes b.before_start b.start v.id).2 :=
          gd_triangle hN has hbs hlt' hlt2
        have hsub2 : get_distance N
            (release_core b.read_nodes b.before_start b.start v.id).2 b.start =
            get_distance N b.before_start b.start - get_distance N b.before_start
              (release_core b.read_nodes b.before_start b.start v.id).2 :=
          gd_sub hN hbs hlt' hs hle'
        right
        constructor
        · unfold cycle_sum at hsum ⊢
          simp only
          rw [htri, hsub2]
          omega
        · show b.after_stop ≠ (release_core b.read_nodes b.before_start b.start v.id).2
          intro hEq
          rw [← hEq, gd_self] at htri
          omega
  refine ⟨hlt', hs, hst, has, hcinv, hwm, hm', hwi, ?_, hwn, ?_, hwb, ?_⟩
  · exact release_core_ids pre b.read_nodes hri hrn
  · exact hrn.sublist (hsubl.map owning_view.id)
  · intro v' hv'
    exact hrb v' (hsubl.subset hv')

theorem wf_view_set {c : Config α N} {v : owning_view} {i : Nat} {x : α}
    (h : WF c) : WF ⟨StreamBuffer.view_set c.buf v i x, c.live_w, c.live_r⟩ :=
  ⟨h.bs_lt, h.s_lt, h.st_lt, h.as_lt, h.cinv, h.w_minv, h.r_minv, h.w_ids,
   h.r_ids, h.w_nodup, h.r_nodup, h.w_bound, h.r_bound⟩

theorem wf_clear {c : Config α N} (hN : 0 < N) (h : WF c)
    (hw : c.live_w = []) (hr : c.live_r = []) :
    WF ⟨c.buf.clear, [], []⟩ := by
  have hwnil : c.buf.write_nodes = [] := by
    have h2 := h.w_ids
    rw [hw] at h2
    simpa using h2
  have hrnil : c.buf.read_nodes = [] := by
    have h2 := h.r_ids
    rw [hr] at h2
    simpa using h2
  refine ⟨hN, hN, hN, hN, Or.inl ⟨rfl, rfl, rfl⟩, ?_, ?_, ?_, ?_,
    by simp, by simp, by simp, by simp⟩
  · show MInv N 0 0 c.buf.write_nodes
    rw [hwnil]
    exact ⟨fun _ => rfl, by simp, by simp, by simp⟩
  · show MInv N 0 0 c.buf.read_nodes
    rw [hrnil]
    exact ⟨fun _ => rfl, by simp, by simp, by simp⟩
  · show c.buf.write_nodes.map Prod.fst = List.map owning_view.id []
    rw [hwnil]; rfl
  · show c.buf.read_nodes.map Prod.fst = List.map owning_view.id []
    rw [hrnil]; rfl

theorem wf_step {c c' : Config α N} (hN : 0 < N) (h : WF c) (hs : Step c c') :
    WF c' := by
  cases hs with
  | prepare_ok hp => exact wf_prepare hN h hp
  | read_ok hp => exact wf_read hN h hp
  | read_all_step => exact wf_read_all hN h
  | release_w hws => exact wf_release_w hN h hws
  | release_r hrs => exact wf_release_r hN h hrs
  | write_elem hv => exact wf_view_set h
  | clear_step hw hr => exact wf_clear hN h hw hr

theorem wf_init (hN : 0 < N) (s : List α) :
    WF (⟨StreamBuffer.init s, [], []⟩ : Config α N) := by
  refine ⟨hN, hN, hN, hN, Or.inl ⟨rfl, rfl, rfl⟩,
    ⟨fun _ => rfl, by simp [StreamBuffer.init], by simp [StreamBuffer.init],
      by simp [StreamBuffer.init]⟩,
    ⟨fun _ => rfl, by simp [StreamBuffer.init], by simp [StreamBuffer.init],
      by simp [StreamBuffer.init]⟩,
    rfl, rfl, by simp, by simp, by simp, by simp⟩

theorem reachable_wf {c : Config α N} (hN : 0 < N) (h : Reachable c) : WF c := by
  induction h with
  | init s => exact wf_init hN s
  | step hr hs ih => exact wf_step hN ih hs

/-- C3, counterexample: the claimed equation
dist(before_start,start) + dist(start,stop) + dist(stop,after_stop) +
dist(after_stop,before_start) = N fails in the freshly constructed state
(which the claim explicitly includes): there all four cursors are 0 and
every summand is 0, so the sum is 0, not N. -/
theorem claim_C3_counterexample :
    Reachable (⟨StreamBuffer.init [0, 0], [], []⟩ : Config Nat 2) ∧
    spec_cycle_sum (⟨StreamBuffer.init [0, 0], [], []⟩ : Config Nat 2).buf = 0 ∧
    spec_cycle_sum (⟨StreamBuffer.init [0, 0], [], []⟩ : Config Nat 2).buf ≠ 2 :=
  ⟨Reachable.init [0, 0], by decide, by decide⟩

/-- C3, amended: between any two public operations (in every reachable
configuration) the four cursors lie in [0, N) and the sum of the four
consecutive distances dist(a,b) = (b - a) mod N equals N, except when
all four cursors coincide (freshly constructed, after clear(), or fully
drained), where the sum is 0. -/
theorem claim_C3 {c : Config α N} (hN : 0 < N) (h : Reachable c) :
    InBounds c.buf ∧ (spec_cycle_sum c.buf = N ∨ AllEq c.buf) := by
  obtain ⟨hbs, hs, hst, has, hci, _, _, _, _, _, _, _, _⟩ := reachable_wf hN h
  refine ⟨⟨hbs, hs, hst, has⟩, ?_⟩
  rcases hci with hA | ⟨hsum, _⟩
  · exact Or.inr hA
  · left
    unfold cycle_sum at hsum
    unfold spec_cycle_sum
    rw [← gd_eq_spec_dist hN hbs hs, ← gd_eq_spec_dist hN hs hst,
      ← gd_eq_spec_dist hN hst has, ← gd_eq_spec_dist hN has hbs]
    exact hsum

theorem claim_C3_witness :
    (0 : Nat) < 2 ∧
    (InBounds (⟨StreamBuffer.init [0, 0], [], []⟩ : Config Nat 2).buf ∧
      (spec_cycle_sum (⟨StreamBuffer.init [0, 0], [], []⟩ : Config Nat 2).buf = 2 ∨
        AllEq (⟨StreamBuffer.init [0, 0], [], []⟩ : Config Nat 2).buf)) :=
  ⟨by decide, claim_C3 (by decide) (Reachable.init [0, 0])⟩

/-- C7: the accessors satisfy their defining equations: size() =
dist(start, stop); max_size() = N-1; front() = storage[start];
back() = storage[(stop + N - 1) mod N]; operator[](i) =
storage[(start + i) mod N] with no bounds check; at(i) fails with
OutOfRange exactly when i >= size(), otherwise returning
storage[(start + i) mod N].  All accessors are pure (state-free). -/
theorem claim_C7 {α : Type} {N : Nat} [Inhabited α] (b : StreamBuffer α N) (i : Nat)
    (hN : 0 < N) (hs : b.start < N) (hst : b.stop < N) :
    b.size = spec_dist N b.start b.stop ∧
    b.max_size = N - 1 ∧
    b.front = b.storage.getD b.start default ∧
    b.back = b.storage.getD ((b.stop + N - 1) % N) default ∧
    b.getIdx i = b.storage.getD ((b.start + i) % N) default ∧
    (b.atIdx i = none ↔ i ≥ b.size) ∧
    (i < b.size → b.atIdx i = some (b.storage.getD ((b.start + i) % N) default)) := by
  refine ⟨gd_eq_spec_dist hN hs hst, rfl, rfl, rfl, rfl, ?_, ?_⟩
  · unfold StreamBuffer.atIdx
    by_cases hge : i ≥ b.size
    · simp [hge]
    · simp [hge]
  · intro hlt
    unfold StreamBuffer.atIdx
    rw [if_neg (by omega)]
    rfl

theorem claim_C7_witness :
    (0 : Nat) < 4 ∧
    (⟨[10, 20, 30, 40], 0, 1, 3, 3, [], 0, [], 0⟩ : StreamBuffer Nat 4).start < 4 ∧
    (⟨[10, 20, 30, 40], 0, 1, 3, 3, [], 0, [], 0⟩ : StreamBuffer Nat 4).stop < 4 ∧
    ((⟨[10, 20, 30, 40], 0, 1, 3, 3, [], 0, [], 0⟩ : StreamBuffer Nat 4).size =
        spec_dist 4 (⟨[10, 20, 30, 40], 0, 1, 3, 3, [], 0, [], 0⟩ :
          StreamBuffer Nat 4).start
          (⟨[10, 20, 30, 40], 0, 1, 3, 3, [], 0, [], 0⟩ : StreamBuffer Nat 4).stop ∧
      (⟨[10, 20, 30, 40], 0, 1, 3, 3, [], 0, [], 0⟩ : StreamBuffer Nat 4).max_size =
        4 - 1 ∧
      (⟨[10, 20, 30, 40], 0, 1, 3, 3, [], 0, [], 0⟩ : StreamBuffer Nat 4).front =
        (⟨[10, 20, 30, 40], 0, 1, 3, 3, [], 0, [], 0⟩ :
          StreamBuffer Nat 4).storage.getD
          (⟨[10, 20, 30, 40], 0, 1, 3, 3, [], 0, [], 0⟩ :
            StreamBuffer Nat 4).start default ∧
      (⟨[10, 20, 30, 40], 0, 1, 3, 3, [], 0, [], 0⟩ : StreamBuffer Nat 4).back =
        (⟨[10, 20, 30, 40], 0, 1, 3, 3, [], 0, [], 0⟩ :
          StreamBuffer Nat 4).storage.getD
          (((⟨[10, 20, 30, 40], 0, 1, 3, 3, [], 0, [], 0⟩ :
            StreamBuffer Nat 4).stop + 4 - 1) % 4) default ∧
      (⟨[10, 20, 30, 40], 0, 1, 3, 3, [], 0, [], 0⟩ : StreamBuffer Nat 4).getIdx 1 =
        (⟨[10, 20, 30, 40], 0, 1, 3, 3, [], 0, [], 0⟩ :
          StreamBuffer Nat 4).storage.getD
          (((⟨[10, 20, 30, 40], 0, 1, 3, 3, [], 0, [], 0⟩ :
            StreamBuffer Nat 4).start + 1) % 4) default ∧
      ((⟨[10, 20, 30, 40], 0, 1, 3, 3, [], 0, [], 0⟩ :
          StreamBuffer Nat 4).atIdx 1 = none ↔
        1 ≥ (⟨[10, 20, 30, 40], 0, 1, 3, 3, [], 0, [], 0⟩ :
          StreamBuffer Nat 4).size) ∧
      (1 < (⟨[10, 20, 30, 40], 0, 1, 3, 3, [], 0, [], 0⟩ :
          StreamBuffer Nat 4).size →
        (⟨[10, 20, 30, 40], 0, 1, 3, 3, [], 0, [], 0⟩ :
            StreamBuffer Nat 4).atIdx 1 =
          some ((⟨[10, 20, 30, 40], 0, 1, 3, 3, [], 0, [], 0⟩ :
            StreamBuffer Nat 4).storage.getD
            (((⟨[10, 20, 30, 40], 0, 1, 3, 3, [], 0, [], 0⟩ :
              StreamBuffer Nat 4).start + 1) % 4) default))) :=
  ⟨by decide, by decide, by decide,
    claim_C7 (⟨[10, 20, 30, 40], 0, 1, 3, 3, [], 0, [], 0⟩ : StreamBuffer Nat 4) 1
      (by decide) (by decide) (by decide)⟩

/-- C6: empty() is true iff read(1) fails with OutOfRange; on an empty
buffer read() returns a lease of length 0, and destroying that lease
(a read release) never changes size(). -/
theorem claim_C6 {α : Type} {N : Nat} (b : StreamBuffer α N)
    (hN : 0 < N) (hs : b.start < N) (hst : b.stop < N) :
    (b.isEmpty ↔ b.read 1 = none) ∧
    (b.isEmpty → view_size N b.read_all.2 = 0) ∧
    (∀ b2 : StreamBuffer α N, (b2.release_read b.read_all.2).size = b2.size) := by
  have hiff : b.isEmpty ↔ b.read_available = 0 := by
    unfold StreamBuffer.isEmpty StreamBuffer.read_available
    exact (gd_eq_zero_iff hs hst).symm
  have hread : b.read 1 = none ↔ 1 > b.read_available := by
    unfold StreamBuffer.read
    split
    · rename_i hgt; simp [hgt]
    · rename_i hgt; simp [hgt]
  refine ⟨?_, ?_, fun b2 => rfl⟩
  · rw [hread, hiff]
    omega
  · intro he
    have h0 : b.read_available = 0 := hiff.mp he
    show get_distance N b.start ((b.start + b.read_available) % N) = 0
    rw [h0]
    simp [Nat.mod_eq_of_lt hs, gd_self]

theorem claim_C6_witness :
    (0 : Nat) < 3 ∧
    (⟨[7, 7, 7], 2, 2, 2, 2, [], 0, [], 0⟩ : StreamBuffer Nat 3).start < 3 ∧
    (⟨[7, 7, 7], 2, 2, 2, 2, [], 0, [], 0⟩ : StreamBuffer Nat 3).stop < 3 ∧
    (((⟨[7, 7, 7], 2, 2, 2, 2, [], 0, [], 0⟩ : StreamBuffer Nat 3).isEmpty ↔
        (⟨[7, 7, 7], 2, 2, 2, 2, [], 0, [], 0⟩ : StreamBuffer Nat 3).read 1 = none) ∧
      ((⟨[7, 7, 7], 2, 2, 2, 2, [], 0, [], 0⟩ : StreamBuffer Nat 3).isEmpty →
        view_size 3
          (⟨[7, 7, 7], 2, 2, 2, 2, [], 0, [], 0⟩ : StreamBuffer Nat 3).read_all.2 = 0) ∧
      (∀ b2 : StreamBuffer Nat 3,
        (b2.release_read
          (⟨[7, 7, 7], 2, 2, 2, 2, [], 0, [], 0⟩ :
            StreamBuffer Nat 3).read_all.2).size = b2.size)) :=
  ⟨by decide, by decide, by decide,
    claim_C6 (⟨[7, 7, 7], 2, 2, 2, 2, [], 0, [], 0⟩ : StreamBuffer Nat 3)
      (by decide) (by decide) (by decide)⟩

/-- C9: a successful read(n) requires n <= size(), decreases size() by
exactly n at acquisition time (start advances by n), and the later
destruction of the read lease changes neither size() nor any cursor or
list other than before_start and the read-node list. -/
theorem claim_C9 {α : Type} {N : Nat} (b b' : StreamBuffer α N) (n : Nat)
    (v : owning_view) (hN : 0 < N) (hs : b.start < N) (hst : b.stop < N)
    (hp : b.read n = some (b', v)) :
    n ≤ b.size ∧ b'.size + n = b.size ∧
    (∀ b2 : StreamBuffer α N,
      (b2.release_read v).size = b2.size ∧
      (b2.release_read v).start = b2.start ∧
      (b2.release_read v).stop = b2.stop ∧
      (b2.release_read v).after_stop = b2.after_stop ∧
      (b2.release_read v).storage = b2.storage ∧
      (b2.release_read v).write_nodes = b2.write_nodes) := by
  unfold StreamBuffer.read at hp
  split at hp
  · exact absurd hp (by simp)
  rename_i hn
  rw [Option.some.injEq, Prod.mk.injEq] at hp
  obtain ⟨hb', hv⟩ := hp
  subst hb' hv
  have hn' : n ≤ b.read_available := Nat.le_of_not_lt hn
  unfold StreamBuffer.read_available at hn'
  refine ⟨hn', ?_, fun b2 => ⟨rfl, rfl, rfl, rfl, rfl, rfl⟩⟩
  show get_distance N ((b.start + n) % N) b.stop + n = get_distance N b.start b.stop
  rw [gd_shift_left hN hs hst hn']
  omega

theorem claim_C9_witness :
    (0 : Nat) < 4 ∧
    (⟨[1, 2, 3, 4], 0, 0, 3, 3, [], 0, [], 0⟩ : StreamBuffer Nat 4).start < 4 ∧
    (⟨[1, 2, 3, 4], 0, 0, 3, 3, [], 0, [], 0⟩ : StreamBuffer Nat 4).stop < 4 ∧
    (⟨[1, 2, 3, 4], 0, 0, 3, 3, [], 0, [], 0⟩ : StreamBuffer Nat 4).read 2 =
      some (⟨[1, 2, 3, 4], 0, 2, 3, 3, [(0, 0)], 1, [], 0⟩, ⟨0, 0, 2⟩) ∧
    (2 ≤ (⟨[1, 2, 3, 4], 0, 0, 3, 3, [], 0, [], 0⟩ : StreamBuffer Nat 4).size ∧
      (⟨[1, 2, 3, 4], 0, 2, 3, 3, [(0, 0)], 1, [], 0⟩ :
          StreamBuffer Nat 4).size + 2 =
        (⟨[1, 2, 3, 4], 0, 0, 3, 3, [], 0, [], 0⟩ : StreamBuffer Nat 4).size ∧
      (∀ b2 : StreamBuffer Nat 4,
        (b2.release_read ⟨0, 0, 2⟩).size = b2.size ∧
        (b2.release_read ⟨0, 0, 2⟩).start = b2.start ∧
        (b2.release_read ⟨0, 0, 2⟩).stop = b2.stop ∧
        (b2.release_read ⟨0, 0, 2⟩).after_stop = b2.after_stop ∧
        (b2.release_read ⟨0, 0, 2⟩).storage = b2.storage ∧
        (b2.release_read ⟨0, 0, 2⟩).write_nodes = b2.write_nodes)) :=
  ⟨by decide, by decide, by decide, by decide,
    claim_C9 (⟨[1, 2, 3, 4], 0, 0, 3, 3, [], 0, [], 0⟩ : StreamBuffer Nat 4)
      (⟨[1, 2, 3, 4], 0, 2, 3, 3, [(0, 0)], 1, [], 0⟩ : StreamBuffer Nat 4) 2
      ⟨0, 0, 2⟩ (by decide) (by decide) (by decide) (by decide)⟩

/-- C5, counterexample: full() is NOT equivalent to zero lendable write
capacity.  In the reachable state below (N = 4; a published element is
held by an outstanding read lease and another slot by an outstanding
write lease) the write manager's available capacity is 0 while full()
is false, because capacity consumed by in-flight leases is not yet
published data. -/
theorem claim_C5_counterexample :
    Reachable (⟨⟨[0, 0, 0, 0], 0, 1, 2, 3, [(0, 0)], 1, [(1, 2)], 2⟩,
      [⟨1, 2, 3⟩], [⟨0, 0, 1⟩]⟩ : Config Nat 4) ∧
    (⟨[0, 0, 0, 0], 0, 1, 2, 3, [(0, 0)], 1, [(1, 2)], 2⟩ :
      StreamBuffer Nat 4).write_available = 0 ∧
    ¬ (⟨[0, 0, 0, 0], 0, 1, 2, 3, [(0, 0)], 1, [(1, 2)], 2⟩ :
      StreamBuffer Nat 4).full := by
  refine ⟨?_, by decide, by decide⟩
  have h0 : Reachable (⟨StreamBuffer.init [0, 0, 0, 0], [], []⟩ : Config Nat 4) :=
    Reachable.init _
  have h1 : Reachable (⟨⟨[0, 0, 0, 0], 0, 0, 0, 2, [], 0, [(0, 0)], 1⟩,
      [⟨0, 0, 2⟩], []⟩ : Config Nat 4) :=
    Reachable.step h0 (Step.prepare_ok
      (show (StreamBuffer.init [0, 0, 0, 0] : StreamBuffer Nat 4).prepare 2 =
        some (⟨[0, 0, 0, 0], 0, 0, 0, 2, [], 0, [(0, 0)], 1⟩, ⟨0, 0, 2⟩) from rfl))
  have h2 : Reachable (⟨⟨[0, 0, 0, 0], 0, 0, 2, 2, [], 0, [], 1⟩,
      [], []⟩ : Config Nat 4) :=
    Reachable.step h1 (Step.release_w
      (show [(⟨0, 0, 2⟩ : owning_view)] = [] ++ (⟨0, 0, 2⟩ : owning_view) :: []
        from rfl))
  have h3 : Reachable (⟨⟨[0, 0, 0, 0], 0, 1, 2, 2, [(0, 0)], 1, [], 1⟩,
      [], [⟨0, 0, 1⟩]⟩ : Config Nat 4) :=
    Reachable.step h2 (Step.read_ok
      (show (⟨[0, 0, 0, 0], 0, 0, 2, 2, [], 0, [], 1⟩ :
        StreamBuffer Nat 4).read 1 =
        some (⟨[0, 0, 0, 0], 0, 1, 2, 2, [(0, 0)], 1, [], 1⟩, ⟨0, 0, 1⟩) from rfl))
  exact Reachable.step h3 (Step.prepare_ok
    (show (⟨[0, 0, 0, 0], 0, 1, 2, 2, [(0, 0)], 1, [], 1⟩ :
      StreamBuffer Nat 4).prepare 1 =
      some (⟨[0, 0, 0, 0], 0, 1, 2, 3, [(0, 0)], 1, [(1, 2)], 2⟩, ⟨1, 2, 3⟩)
        from rfl))

/-- C5, amended: full() always implies that the lendable write capacity
is zero, and when no lease is outstanding (before_start = start and
stop = after_stop) full() holds if and only if the lendable capacity is
zero; on a full buffer prepare(1) fails with OutOfRange and leaves the
buffer (cursors, node lists and storage) unchanged.  The unconditional
converse fails: outstanding leases can consume all lendable capacity
without the buffer being full. -/
theorem claim_C5 {α : Type} {N : Nat} (b : StreamBuffer α N) (hN : 0 < N)
    (hb : InBounds b) (hc : CursorInv b) :
    (b.full → b.write_available = 0) ∧
    (b.before_start = b.start → b.stop = b.after_stop →
      (b.full ↔ b.write_available = 0)) ∧
    (b.full → b.prepare 1 = none ∧ b.prepare_st 1 = b) := by
  obtain ⟨hbs, hs, hst, has⟩ := hb
  have hfg : b.full ↔ get_distance N b.start b.stop = N - 1 := by
    unfold StreamBuffer.full
    exact full_iff_gd hN hs hst
  have hfwd : b.full → b.write_available = 0 := by
    intro hfull
    have hsz := hfg.mp hfull
    unfold StreamBuffer.write_available
    rcases hc with ⟨e1, e2, e3⟩ | ⟨hsum, hne⟩
    · have hz : get_distance N b.start b.stop = 0 := by rw [e2]; exact gd_self
      have e4 : b.after_stop = b.before_start := by omega
      rw [e4, gd_succ_self hbs]
      omega
    · have hd1 := gd_succ hN has hbs hne
      have h0 : get_distance N b.after_stop b.before_start ≠ 0 :=
        fun hz => hne ((gd_eq_zero_iff has hbs).mp hz)
      unfold cycle_sum at hsum
      rw [hd1]
      omega
  refine ⟨hfwd, ?_, ?_⟩
  · intro hq1 hq2
    refine ⟨hfwd, ?_⟩
    intro havail
    rw [hfg]
    unfold StreamBuffer.write_available at havail
    rcases hc with ⟨e1, e2, e3⟩ | ⟨hsum, hne⟩
    · have e4 : b.after_stop = b.before_start := by omega
      rw [e4, gd_succ_self hbs] at havail
      have hz : get_distance N b.start b.stop = 0 := by rw [e2]; exact gd_self
      omega
    · have hd1 := gd_succ hN has hbs hne
      have h0 : get_distance N b.after_stop b.before_start ≠ 0 :=
        fun hz => hne ((gd_eq_zero_iff has hbs).mp hz)
      have hz1 : get_distance N b.before_start b.start = 0 := by
        rw [hq1]; exact gd_self
      have hz3 : get_distance N b.stop b.after_stop = 0 := by
        rw [hq2]; exact gd_self
      unfold cycle_sum at hsum
      rw [hd1] at havail
      omega
  · intro hfull
    have h0 := hfwd hfull
    constructor
    · unfold StreamBuffer.prepare
      rw [if_pos (by omega)]
    · simp [StreamBuffer.prepare_st, StreamBuffer.prepare, h0]

theorem claim_C5_witness :
    (0 : Nat) < 2 ∧
    InBounds (⟨[5, 5], 0, 0, 1, 1, [], 0, [], 0⟩ : StreamBuffer Nat 2) ∧
    CursorInv (⟨[5, 5], 0, 0, 1, 1, [], 0, [], 0⟩ : StreamBuffer Nat 2) ∧
    (((⟨[5, 5], 0, 0, 1, 1, [], 0, [], 0⟩ : StreamBuffer Nat 2).full →
        (⟨[5, 5], 0, 0, 1, 1, [], 0, [], 0⟩ :
          StreamBuffer Nat 2).write_available = 0) ∧
      ((⟨[5, 5], 0, 0, 1, 1, [], 0, [], 0⟩ : StreamBuffer Nat 2).before_start =
          (⟨[5, 5], 0, 0, 1, 1, [], 0, [], 0⟩ : StreamBuffer Nat 2).start →
        (⟨[5, 5], 0, 0, 1, 1, [], 0, [], 0⟩ : StreamBuffer Nat 2).stop =
          (⟨[5, 5], 0, 0, 1, 1, [], 0, [], 0⟩ : StreamBuffer Nat 2).after_stop →
        ((⟨[5, 5], 0, 0, 1, 1, [], 0, [], 0⟩ : StreamBuffer Nat 2).full ↔
          (⟨[5, 5], 0, 0, 1, 1, [], 0, [], 0⟩ :
            StreamBuffer Nat 2).write_available = 0)) ∧
      ((⟨[5, 5], 0, 0, 1, 1, [], 0, [], 0⟩ : StreamBuffer Nat 2).full →
        (⟨[5, 5], 0, 0, 1, 1, [], 0, [], 0⟩ : StreamBuffer Nat 2).prepare 1 =
          none ∧
        (⟨[5, 5], 0, 0, 1, 1, [], 0, [], 0⟩ : StreamBuffer Nat 2).prepare_st 1 =
          ⟨[5, 5], 0, 0, 1, 1, [], 0, [], 0⟩)) :=
  ⟨by decide, by decide, by decide,
    claim_C5 (⟨[5, 5], 0, 0, 1, 1, [], 0, [], 0⟩ : StreamBuffer Nat 2)
      (by decide) (by decide) (by decide)⟩

/-- C2, counterexample: the spec's identity available =
dist(after_stop, before_start) - 1 fails when after_stop = before_start
(e.g. in the freshly constructed buffer): the code computes
available = get_distance(after_stop + 1, before_start) = N - 1 there,
while dist(after_stop, before_start) - 1 underflows from 0. -/
theorem claim_C2_counterexample :
    (StreamBuffer.init [0, 0, 0, 0] : StreamBuffer Nat 4).write_available = 3 ∧
    get_distance 4
      (StreamBuffer.init [0, 0, 0, 0] : StreamBuffer Nat 4).after_stop
      (StreamBuffer.init [0, 0, 0, 0] : StreamBuffer Nat 4).before_start - 1 = 0 ∧
    ¬ ((StreamBuffer.init [0, 0, 0, 0] : StreamBuffer Nat 4).write_available =
      get_distance 4
        (StreamBuffer.init [0, 0, 0, 0] : StreamBuffer Nat 4).after_stop
        (StreamBuffer.init [0, 0, 0, 0] : StreamBuffer Nat 4).before_start - 1) :=
  ⟨by decide, by decide, by decide⟩

/-- C2, amended: prepare(n) and read(n) compute
available = get_distance(lendable_begin + R, lendable_end) (R = 1 for
writes with lendable_begin = after_stop, lendable_end = before_start;
R = 0 for reads with lendable_begin = start, lendable_end = stop), fail
exactly when n > available, and otherwise append the current
lendable_begin to the node list, return a lease
[lendable_begin, (lendable_begin + n) mod N) and advance lendable_begin
to that end, touching nothing else.  The write-side available equals
dist(after_stop, before_start) - 1 whenever after_stop differs from
before_start (when they coincide the code yields N - 1, not 0 - 1). -/
theorem claim_C2 {α : Type} {N : Nat} (b : StreamBuffer α N) (n : Nat) :
    (b.prepare n = none ↔ n > b.write_available) ∧
    (b.read n = none ↔ n > b.read_available) ∧
    b.write_available = get_distance N (b.after_stop + 1) b.before_start ∧
    b.read_available = get_distance N (b.start + 0) b.stop ∧
    (0 < N → b.after_stop < N → b.before_start < N →
      b.after_stop ≠ b.before_start →
      b.write_available = get_distance N b.after_stop b.before_start - 1) ∧
    (∀ b' v, b.prepare n = some (b', v) →
      v.start = b.after_stop ∧ v.stop = (b.after_stop + n) % N ∧
      b'.write_nodes = b.write_nodes ++ [(b.write_next_id, b.after_stop)] ∧
      b'.after_stop = (b.after_stop + n) % N ∧
      b'.before_start = b.before_start ∧ b'.start = b.start ∧ b'.stop = b.stop ∧
      b'.storage = b.storage ∧ b'.read_nodes = b.read_nodes) ∧
    (∀ b' v, b.read n = some (b', v) →
      v.start = b.start ∧ v.stop = (b.start + n) % N ∧
      b'.read_nodes = b.read_nodes ++ [(b.read_next_id, b.start)] ∧
      b'.start = (b.start + n) % N ∧
      b'.before_start = b.before_start ∧ b'.stop = b.stop ∧
      b'.after_stop = b.after_stop ∧
      b'.storage = b.storage ∧ b'.write_nodes = b.write_nodes) := by
  refine ⟨?_, ?_, rfl, by simp [StreamBuffer.read_available], ?_, ?_, ?_⟩
  · unfold StreamBuffer.prepare
    split
    · rename_i hgt; simp [hgt]
    · rename_i hgt; simp [hgt]
  · unfold StreamBuffer.read
    split
    · rename_i hgt; simp [hgt]
    · rename_i hgt; simp [hgt]
  · intro hN has hbs hne
    unfold StreamBuffer.write_available
    exact gd_succ hN has hbs hne
  · intro b' v hp
    unfold StreamBuffer.prepare at hp
    split at hp
    · exact absurd hp (by simp)
    rw [Option.some.injEq, Prod.mk.injEq] at hp
    obtain ⟨hb', hv⟩ := hp
    subst hb' hv
    exact ⟨rfl, rfl, rfl, rfl, rfl, rfl, rfl, rfl, rfl⟩
  · intro b' v hp
    unfold StreamBuffer.read at hp
    split at hp
    · exact absurd hp (by simp)
    rw [Option.some.injEq, Prod.mk.injEq] at hp
    obtain ⟨hb', hv⟩ := hp
    subst hb' hv
    exact ⟨rfl, rfl, rfl, rfl, rfl, rfl, rfl, rfl, rfl⟩

theorem claim_C2_witness :
    (((⟨[0, 0, 0, 0], 0, 0, 1, 1, [], 0, [], 0⟩ :
        StreamBuffer Nat 4).prepare 2 = none ↔
      2 > (⟨[0, 0, 0, 0], 0, 0, 1, 1, [], 0, [], 0⟩ :
        StreamBuffer Nat 4).write_available) ∧
    ((⟨[0, 0, 0, 0], 0, 0, 1, 1, [], 0, [], 0⟩ :
        StreamBuffer Nat 4).read 2 = none ↔
      2 > (⟨[0, 0, 0, 0], 0, 0, 1, 1, [], 0, [], 0⟩ :
        StreamBuffer Nat 4).read_available)) ∧
    ((0 : Nat) < 4 ∧
      (⟨[0, 0, 0, 0], 0, 0, 1, 1, [], 0, [], 0⟩ :
        StreamBuffer Nat 4).after_stop < 4 ∧
      (⟨[0, 0, 0, 0], 0, 0, 1, 1, [], 0, [], 0⟩ :
        StreamBuffer Nat 4).before_start < 4 ∧
      (⟨[0, 0, 0, 0], 0, 0, 1, 1, [], 0, [], 0⟩ :
        StreamBuffer Nat 4).after_stop ≠
        (⟨[0, 0, 0, 0], 0, 0, 1, 1, [], 0, [], 0⟩ :
          StreamBuffer Nat 4).before_start ∧
      (⟨[0, 0, 0, 0], 0, 0, 1, 1, [], 0, [], 0⟩ :
        StreamBuffer Nat 4).write_available =
        get_distance 4
          (⟨[0, 0, 0, 0], 0, 0, 1, 1, [], 0, [], 0⟩ :
            StreamBuffer Nat 4).after_stop
          (⟨[0, 0, 0, 0], 0, 0, 1, 1, [], 0, [], 0⟩ :
            StreamBuffer Nat 4).before_start - 1) ∧
    ((⟨[0, 0, 0, 0], 0, 0, 1, 1, [], 0, [], 0⟩ :
        StreamBuffer Nat 4).prepare 2 =
      some (⟨[0, 0, 0, 0], 0, 0, 1, 3, [], 0, [(0, 1)], 1⟩, ⟨0, 1, 3⟩) ∧
      (⟨0, 1, 3⟩ : owning_view).start =
        (⟨[0, 0, 0, 0], 0, 0, 1, 1, [], 0, [], 0⟩ :
          StreamBuffer Nat 4).after_stop ∧
      (⟨[0, 0, 0, 0], 0, 0, 1, 3, [], 0, [(0, 1)], 1⟩ :
        StreamBuffer Nat 4).after_stop =
        ((⟨[0, 0, 0, 0], 0, 0, 1, 1, [], 0, [], 0⟩ :
          StreamBuffer Nat 4).after_stop + 2) % 4) :=
  ⟨⟨(claim_C2 (⟨[0, 0, 0, 0], 0, 0, 1, 1, [], 0, [], 0⟩ : StreamBuffer Nat 4) 2).1,
    (claim_C2 (⟨[0, 0, 0, 0], 0, 0, 1, 1, [], 0, [], 0⟩ :
      StreamBuffer Nat 4) 2).2.1⟩,
   ⟨by decide, by decide, by decide, by decide,
    (claim_C2 (⟨[0, 0, 0, 0], 0, 0, 1, 1, [], 0, [], 0⟩ :
        StreamBuffer Nat 4) 2).2.2.2.2.1
      (by decide) (by decide) (by decide) (by decide)⟩,
   ⟨by decide,
    ((claim_C2 (⟨[0, 0, 0, 0], 0, 0, 1, 1, [], 0, [], 0⟩ :
        StreamBuffer Nat 4) 2).2.2.2.2.2.1
      (⟨[0, 0, 0, 0], 0, 0, 1, 3, [], 0, [(0, 1)], 1⟩ : StreamBuffer Nat 4)
      ⟨0, 1, 3⟩ (by decide)).1,
    ((claim_C2 (⟨[0, 0, 0, 0], 0, 0, 1, 1, [], 0, [], 0⟩ :
        StreamBuffer Nat 4) 2).2.2.2.2.2.1
      (⟨[0, 0, 0, 0], 0, 0, 1, 3, [], 0, [(0, 1)], 1⟩ : StreamBuffer Nat 4)
      ⟨0, 1, 3⟩ (by decide)).2.2.2.1⟩⟩

/-- C8, counterexample: move-assignment does not leave the source inert
in general: operator=(owning_view &&) swaps the handles, so assigning
onto a target that holds a live lease hands that lease to the source,
and destroying the source then releases it, changing the ring (here the
node list empties and stop advances). -/
theorem claim_C8_counterexample :
    (move_assign (some ⟨0, 0, 1⟩) (some ⟨5, 0, 0⟩)).2 ≠ none ∧
    destroy_write (⟨[0, 0], 0, 0, 0, 1, [], 0, [(0, 0)], 1⟩ : StreamBuffer Nat 2)
        (move_assign (some ⟨0, 0, 1⟩) (some ⟨5, 0, 0⟩)).2 ≠
      (⟨[0, 0], 0, 0, 0, 1, [], 0, [(0, 0)], 1⟩ : StreamBuffer Nat 2) :=
  ⟨by decide, by decide⟩

/-- C8, amended: move-construction transfers the range and node handle
and leaves the source inert; destroying an inert handle is a no-op, so
moving a lease into a fresh location (by move-construction, or by
move-assignment onto an inert target) and destroying the source has no
effect on the ring.  Move-assignment in general swaps the two handles,
so its source is left inert exactly when the target held no lease. -/
theorem claim_C8 {α : Type} {N : Nat} (b : StreamBuffer α N)
    (src tgt : Option owning_view) :
    move_construct src = (src, none) ∧
    destroy_write b (move_construct src).2 = b ∧
    destroy_read b (move_construct src).2 = b ∧
    move_assign tgt src = (src, tgt) ∧
    (tgt = none → destroy_write b (move_assign tgt src).2 = b) ∧
    (tgt = none → destroy_read b (move_assign tgt src).2 = b) := by
  refine ⟨rfl, rfl, rfl, rfl, ?_, ?_⟩ <;> intro h <;> subst h <;> rfl

theorem claim_C8_witness :
    (move_construct (some ⟨3, 1, 2⟩) = (some ⟨3, 1, 2⟩, none) ∧
      destroy_write (StreamBuffer.init [9, 9] : StreamBuffer Nat 2)
        (move_construct (some ⟨3, 1, 2⟩)).2 = StreamBuffer.init [9, 9] ∧
      destroy_read (StreamBuffer.init [9, 9] : StreamBuffer Nat 2)
        (move_construct (some ⟨3, 1, 2⟩)).2 = StreamBuffer.init [9, 9] ∧
      move_assign none (some ⟨3, 1, 2⟩) = (some ⟨3, 1, 2⟩, none)) ∧
    destroy_write (StreamBuffer.init [9, 9] : StreamBuffer Nat 2)
      (move_assign none (some ⟨3, 1, 2⟩)).2 = StreamBuffer.init [9, 9] ∧
    destroy_read (StreamBuffer.init [9, 9] : StreamBuffer Nat 2)
      (move_assign none (some ⟨3, 1, 2⟩)).2 = StreamBuffer.init [9, 9] :=
  ⟨⟨(claim_C8 (StreamBuffer.init [9, 9] : StreamBuffer Nat 2) (some ⟨3, 1, 2⟩) none).1,
    (claim_C8 (StreamBuffer.init [9, 9] : StreamBuffer Nat 2) (some ⟨3, 1, 2⟩) none).2.1,
    (claim_C8 (StreamBuffer.init [9, 9] : StreamBuffer Nat 2) (some ⟨3, 1, 2⟩) none).2.2.1,
    (claim_C8 (StreamBuffer.init [9, 9] : StreamBuffer Nat 2) (some ⟨3, 1, 2⟩) none).2.2.2.1⟩,
   (claim_C8 (StreamBuffer.init [9, 9] : StreamBuffer Nat 2) (some ⟨3, 1, 2⟩) none).2.2.2.2.1 rfl,
   (claim_C8 (StreamBuffer.init [9, 9] : StreamBuffer Nat 2) (some ⟨3, 1, 2⟩) none).2.2.2.2.2 rfl⟩

theorem removeId_mid :
    ∀ (pre : List (Nat × Nat)) {post : List (Nat × Nat)} {id0 v0 i : Nat},
    ((pre ++ (id0, v0) :: post).map Prod.fst).Nodup →
    i ∈ post.map Prod.fst →
    removeId (pre ++ (id0, v0) :: post) i = pre ++ (id0, v0) :: removeId post i := by
  intro pre
  induction pre with
  | nil =>
    intro post id0 v0 i hnd hmem
    simp only [List.nil_append, List.map_cons, List.nodup_cons] at hnd
    have hne : id0 ≠ i := by
      intro hEq
      exact hnd.1 (hEq ▸ hmem)
    simp [removeId, hne]
  | cons p pre' ih =>
    intro post id0 v0 i hnd hmem
    simp only [List.cons_append, List.map_cons, List.nodup_cons] at hnd
    have hne : p.1 ≠ i := by
      intro hEq
      refine hnd.1 ?_
      rw [hEq]
      simp only [List.map_append, List.map_cons, List.mem_append, List.mem_cons]
      exact Or.inr (Or.inr hmem)
    simp only [List.cons_append, removeId, if_neg hne, List.append_eq]
    rw [ih hnd.2 hmem]

theorem release_core_mid {lb ld : Nat} :
    ∀ (pre : List (Nat × Nat)) {post : List (Nat × Nat)} {id0 v0 i : Nat},
    ((pre ++ (id0, v0) :: post).map Prod.fst).Nodup →
    i ∈ post.map Prod.fst →
    release_core (pre ++ (id0, v0) :: post) lb ld i =
      (pre ++ (id0, v0) :: removeId post i, lb) := by
  intro pre
  cases pre with
  | nil =>
    intro post id0 v0 i hnd hmem
    simp only [List.nil_append, List.map_cons, List.nodup_cons] at hnd
    have hne : id0 ≠ i := by
      intro hEq
      exact hnd.1 (hEq ▸ hmem)
    simp [release_core, hne]
  | cons p pre' =>
    intro post id0 v0 i hnd hmem
    have hnd' := hnd
    simp only [List.cons_append, List.map_cons, List.nodup_cons] at hnd'
    have hne : p.1 ≠ i := by
      intro hEq
      refine hnd'.1 ?_
      rw [hEq]
      simp only [List.map_append, List.map_cons, List.mem_append, List.mem_cons]
      exact Or.inr (Or.inr hmem)
    simp only [List.cons_append, release_core, if_neg hne, List.append_eq]
    rw [removeId_mid pre' hnd'.2 hmem]

theorem mem_removeId {l : List (Nat × Nat)} {i j : Nat} (hne : j ≠ i)
    (h : j ∈ l.map Prod.fst) : j ∈ (removeId l i).map Prod.fst := by
  induction l with
  | nil => simp at h
  | cons p rest ih =>
    simp only [List.map_cons, List.mem_cons] at h
    unfold removeId
    by_cases hp : p.1 = i
    · rw [if_pos hp]
      rcases h with h1 | h2
      · exact absurd (h1.trans hp) hne
      · exact h2
    · rw [if_neg hp]
      simp only [List.map_cons, List.mem_cons]
      rcases h with h1 | h2
      · exact Or.inl h1
      · exact Or.inr (ih h2)

theorem releaseAll_later {α : Type} {N : Nat} :
    ∀ (rs : List owning_view) (b : StreamBuffer α N)
      (pre post : List (Nat × Nat)) (id0 v0 : Nat),
    b.write_nodes = pre ++ (id0, v0) :: post →
    (b.write_nodes.map Prod.fst).Nodup →
    (∀ r ∈ rs, owning_view.id r ∈ post.map Prod.fst) →
    (rs.map owning_view.id).Nodup →
    (releaseAll b rs).size = b.size ∧
    (releaseAll b rs).stop = b.stop ∧
    ∃ post2, (releaseAll b rs).write_nodes = pre ++ (id0, v0) :: post2 ∧
      post2.Sublist post := by
  intro rs
  induction rs with
  | nil =>
    intro b pre post id0 v0 h1 h2 h3 h4
    exact ⟨rfl, rfl, post, h1, List.Sublist.refl post⟩
  | cons r rs' ih =>
    intro b pre post id0 v0 h1 h2 h3 h4
    have hrmem : owning_view.id r ∈ post.map Prod.fst := h3 r (by simp)
    have hnd2 : ((pre ++ (id0, v0) :: post).map Prod.fst).Nodup := h1 ▸ h2
    have hstep : b.release_write r =
        { b with write_nodes := pre ++ (id0, v0) :: removeId post r.id } := by
      unfold StreamBuffer.release_write
      rw [h1, release_core_mid pre hnd2 hrmem]
    have hsubnodes : (pre ++ (id0, v0) :: removeId post r.id).Sublist
        (pre ++ (id0, v0) :: post) :=
      ((removeId_sublist post r.id).cons₂ (id0, v0)).append_left pre
    simp only [List.map_cons, List.nodup_cons] at h4
    have hmain := ih (b.release_write r) pre (removeId post r.id) id0 v0
      (by rw [hstep])
      (by
        rw [hstep]
        exact hnd2.sublist (hsubnodes.map Prod.fst))
      (by
        intro r' hr'
        refine mem_removeId ?_ (h3 r' (List.mem_cons_of_mem r hr'))
        intro hEq
        exact h4.1 (hEq ▸ List.mem_map_of_mem owning_view.id hr'))
      h4.2
    obtain ⟨hs1, hs2, post2, hp2, hsub⟩ := hmain
    have hall : releaseAll b (r :: rs') = releaseAll (b.release_write r) rs' := rfl
    rw [hall]
    refine ⟨?_, ?_, post2, hp2, hsub.trans (removeId_sublist post r.id)⟩
    · rw [hs1, hstep]
      exact rfl
    · rw [hs2, hstep]

/-- C10: prepare(0) succeeds in every buffer state (including full),
yielding a zero-length lease; and while its node is still in the write
node list, releasing any collection of later-acquired write leases
(ids strictly after it in the list) never moves stop and never changes
size(): nothing acquired after the zero-length lease is published until
the zero-length lease itself is destroyed. -/
theorem claim_C10 {α : Type} {N : Nat} :
    (∀ b : StreamBuffer α N, ∃ p, b.prepare 0 = some p) ∧
    (∀ b : StreamBuffer α N, b.after_stop < N →
      ∀ b' v, b.prepare 0 = some (b', v) → view_size N v = 0) ∧
    (∀ (b : StreamBuffer α N) (pre post : List (Nat × Nat)) (id0 v0 : Nat)
      (rs : List owning_view),
      b.write_nodes = pre ++ (id0, v0) :: post →
      (b.write_nodes.map Prod.fst).Nodup →
      (∀ r ∈ rs, owning_view.id r ∈ post.map Prod.fst) →
      (rs.map owning_view.id).Nodup →
      (releaseAll b rs).size = b.size ∧
      (releaseAll b rs).stop = b.stop ∧
      ∃ post2, (releaseAll b rs).write_nodes = pre ++ (id0, v0) :: post2 ∧
        post2.Sublist post) := by
  refine ⟨?_, ?_, ?_⟩
  · intro b
    refine ⟨({ b with
        write_nodes := b.write_nodes ++ [(b.write_next_id, b.after_stop)],
        write_next_id := b.write_next_id + 1,
        after_stop := (b.after_stop + 0) % N },
      ⟨b.write_next_id, b.after_stop, (b.after_stop + 0) % N⟩), ?_⟩
    unfold StreamBuffer.prepare
    rw [if_neg (by omega)]
  · intro b hlt b' v hp
    unfold StreamBuffer.prepare at hp
    split at hp
    · exact absurd hp (by simp)
    rw [Option.some.injEq, Prod.mk.injEq] at hp
    obtain ⟨hb', hv⟩ := hp
    subst hv
    show get_distance N b.after_stop ((b.after_stop + 0) % N) = 0
    simp [Nat.mod_eq_of_lt hlt, gd_self]
  · intro b pre post id0 v0 rs h1 h2 h3 h4
    exact releaseAll_later rs b pre post id0 v0 h1 h2 h3 h4

theorem claim_C10_witness :
    ((∃ p, (⟨[0, 0, 0], 0, 0, 2, 2, [], 0, [], 0⟩ :
        StreamBuffer Nat 3).prepare 0 = some p) ∧
      ((⟨[0, 0, 0], 0, 0, 2, 2, [], 0, [], 0⟩ :
          StreamBuffer Nat 3).after_stop < 3 →
        ∀ b' v, (⟨[0, 0, 0], 0, 0, 2, 2, [], 0, [], 0⟩ :
          StreamBuffer Nat 3).prepare 0 = some (b', v) → view_size 3 v = 0)) ∧
    ((releaseAll (⟨[0, 0, 0, 0, 0], 0, 0, 0, 3, [], 0,
        [(0, 0), (1, 1), (2, 2)], 3⟩ : StreamBuffer Nat 5) [⟨2, 2, 3⟩]).size =
      (⟨[0, 0, 0, 0, 0], 0, 0, 0, 3, [], 0,
        [(0, 0), (1, 1), (2, 2)], 3⟩ : StreamBuffer Nat 5).size ∧
    (releaseAll (⟨[0, 0, 0, 0, 0], 0, 0, 0, 3, [], 0,
        [(0, 0), (1, 1), (2, 2)], 3⟩ : StreamBuffer Nat 5) [⟨2, 2, 3⟩]).stop =
      (⟨[0, 0, 0, 0, 0], 0, 0, 0, 3, [], 0,
        [(0, 0), (1, 1), (2, 2)], 3⟩ : StreamBuffer Nat 5).stop ∧
    ∃ post2, (releaseAll (⟨[0, 0, 0, 0, 0], 0, 0, 0, 3, [], 0,
        [(0, 0), (1, 1), (2, 2)], 3⟩ : StreamBuffer Nat 5)
          [⟨2, 2, 3⟩]).write_nodes = [] ++ (0, 0) :: post2 ∧
      post2.Sublist [(1, 1), (2, 2)]) :=
  ⟨⟨(claim_C10 (α := Nat) (N := 3)).1
      (⟨[0, 0, 0], 0, 0, 2, 2, [], 0, [], 0⟩ : StreamBuffer Nat 3),
    (claim_C10 (α := Nat) (N := 3)).2.1
      (⟨[0, 0, 0], 0, 0, 2, 2, [], 0, [], 0⟩ : StreamBuffer Nat 3)⟩,
   (claim_C10 (α := Nat) (N := 5)).2.2
      (⟨[0, 0, 0, 0, 0], 0, 0, 0, 3, [], 0, [(0, 0), (1, 1), (2, 2)], 3⟩ :
        StreamBuffer Nat 5) [] [(1, 1), (2, 2)] 0 0 [⟨2, 2, 3⟩]
      (by decide) (by decide) (by decide) (by decide)⟩

theorem release_core_char {lb ld i : Nat} {nodes : List (Nat × Nat)}
    (h : i ∈ nodes.map Prod.fst) :
    (release_core nodes lb ld i).1 = removeId nodes i ∧
    (release_core nodes lb ld i).2 =
      (if nodes.head?.map Prod.fst = some i then
        match removeId nodes i with
        | [] => ld
        | q :: _ => q.2
      else lb) := by
  cases nodes with
  | nil => simp at h
  | cons p rest =>
    by_cases hpi : p.1 = i
    · constructor
      · simp [release_core, removeId, hpi]
      · simp only [release_core, removeId, if_pos hpi, List.head?]
        rw [if_pos (by simp [hpi])]
    · constructor
      · simp [release_core, removeId, hpi]
      · simp only [release_core, removeId, if_neg hpi, List.head?]
        rw [if_neg (by simp [hpi])]

/-- C1: releasing a non-inert live lease removes exactly its node from
its manager's list, and the manager's lent-begin cursor (stop for the
write manager, before_start for the read manager) is reassigned exactly
when the removed node was the oldest (leftmost): to the new oldest
node's value, or to the manager's lendable_begin (after_stop for
writes, start for reads) when the list becomes empty.  Consequently if
writer A acquires before writer B (from a state with no outstanding
writer) and B releases first, size() does not increase until A
releases, and when A releases size() increases by |A| + |B|. -/
theorem claim_C1 {α : Type} {N : Nat} :
    (∀ (b : StreamBuffer α N) (v : owning_view),
      v.id ∈ b.write_nodes.map Prod.fst →
      (b.release_write v).write_nodes = removeId b.write_nodes v.id ∧
      (b.release_write v).stop =
        (if b.write_nodes.head?.map Prod.fst = some v.id then
          match removeId b.write_nodes v.id with
          | [] => b.after_stop
          | q :: _ => q.2
        else b.stop)) ∧
    (∀ (b : StreamBuffer α N) (v : owning_view),
      v.id ∈ b.read_nodes.map Prod.fst →
      (b.release_read v).read_nodes = removeId b.read_nodes v.id ∧
      (b.release_read v).before_start =
        (if b.read_nodes.head?.map Prod.fst = some v.id then
          match removeId b.read_nodes v.id with
          | [] => b.start
          | q :: _ => q.2
        else b.before_start)) ∧
    (∀ (b bA bB : StreamBuffer α N) (na nb : Nat) (vA vB : owning_view),
      0 < N → InBounds b → CursorInv b →
      b.write_nodes = [] → b.stop = b.after_stop →
      b.prepare na = some (bA, vA) → bA.prepare nb = some (bB, vB) →
      view_size N vA = na ∧ view_size N vB = nb ∧
      bB.size = b.size ∧
      (bB.release_write vB).size = b.size ∧
      ((bB.release_write vB).release_write vA).size = b.size + na + nb) := by
  refine ⟨?_, ?_, ?_⟩
  · intro b v h
    exact release_core_char h
  · intro b v h
    exact release_core_char h
  intro b bA bB na nb vA vB hN hb hc hw0 hsa hpA hpB
  obtain ⟨hbs, hs, hst, has⟩ := hb
  unfold StreamBuffer.prepare at hpA
  split at hpA
  · exact absurd hpA (by simp)
  rename_i hnA
  rw [Option.some.injEq, Prod.mk.injEq] at hpA
  obtain ⟨hbA, hvA⟩ := hpA
  subst hbA hvA
  have hnA' : na ≤ b.write_available := Nat.le_of_not_lt hnA
  unfold StreamBuffer.prepare at hpB
  split at hpB
  · exact absurd hpB (by simp)
  rename_i hnB
  rw [Option.some.injEq, Prod.mk.injEq] at hpB
  obtain ⟨hbB, hvB⟩ := hpB
  subst hbB hvB
  have hnB' : nb ≤ get_distance N ((b.after_stop + na) % N + 1) b.before_start :=
    Nat.le_of_not_lt hnB
  unfold StreamBuffer.write_available at hnA'
  have ha1lt : (b.after_stop + na) % N < N := Nat.mod_lt _ hN
  have hbound : get_distance N b.start b.stop + na + nb < N := by
    rcases hc with ⟨e1, e2, e3⟩ | ⟨hsum, hne⟩
    · have e4 : b.after_stop = b.before_start := by omega
      have hzs : get_distance N b.start b.stop = 0 := by rw [e2]; exact gd_self
      rw [e4, gd_succ_self hbs] at hnA'
      by_cases hna0 : na = 0
      · subst hna0
        have ha1 : (b.after_stop + 0) % N = b.after_stop := by
          simp [Nat.mod_eq_of_lt has]
        rw [ha1, e4, gd_succ_self hbs] at hnB'
        omega
      · have hnaN : na < N := by omega
        have hda1 : get_distance N b.after_stop ((b.after_stop + na) % N) = na := by
          have h2 := gd_add_right hN has has (a := b.after_stop) (m := na)
            (by rw [gd_self]; omega)
          rw [gd_self] at h2
          simpa using h2
        have hne1 : (b.after_stop + na) % N ≠ b.after_stop := by
          intro hEq
          rw [hEq, gd_self] at hda1
          omega
        have hcomp := gd_comp hN has ha1lt hne1.symm
        have hwaA : get_distance N ((b.after_stop + na) % N + 1) b.before_start =
            get_distance N ((b.after_stop + na) % N) b.before_start - 1 :=
          gd_succ hN ha1lt hbs (by rw [← e4]; exact hne1)
        have hback : get_distance N ((b.after_stop + na) % N) b.before_start =
            N - na := by
          rw [← e4]
          omega
        rw [hwaA, hback] at hnB'
        omega
    · have h0 : get_distance N b.after_stop b.before_start ≠ 0 :=
        fun hz => hne ((gd_eq_zero_iff has hbs).mp hz)
      rw [gd_succ hN has hbs hne] at hnA'
      have hshift : get_distance N ((b.after_stop + na) % N) b.before_start =
          get_distance N b.after_stop b.before_start - na :=
        gd_shift_left hN has hbs (by omega)
      have hne2 : (b.after_stop + na) % N ≠ b.before_start := by
        intro hEq
        rw [hEq, gd_self] at hshift
        omega
      rw [gd_succ hN ha1lt hbs hne2, hshift] at hnB'
      have hzA : get_distance N b.stop b.after_stop = 0 := by
        rw [hsa]; exact gd_self
      unfold cycle_sum at hsum
      omega
  have hnaN : na < N := by omega
  have hnbN : nb < N := by omega
  have hvsA : get_distance N b.after_stop ((b.after_stop + na) % N) = na := by
    have h2 := gd_add_right hN has has (a := b.after_stop) (m := na)
      (by rw [gd_self]; omega)
    rw [gd_self] at h2
    simpa using h2
  have hvsB : get_distance N ((b.after_stop + na) % N)
      (((b.after_stop + na) % N + nb) % N) = nb := by
    have h2 := gd_add_right hN ha1lt ha1lt (a := (b.after_stop + na) % N) (m := nb)
      (by rw [gd_self]; omega)
    rw [gd_self] at h2
    simpa using h2
  have h1 : get_distance N b.start b.after_stop = get_distance N b.start b.stop := by
    rw [← hsa]
  have hstep1 : get_distance N b.start ((b.after_stop + na) % N) =
      get_distance N b.start b.stop + na := by
    have h2 := gd_add_right hN hs has (m := na) (by rw [h1]; omega)
    rw [h1] at h2
    exact h2
  have hstep2 : get_distance N b.start (((b.after_stop + na) % N + nb) % N) =
      get_distance N b.start b.stop + na + nb := by
    have h2 := gd_add_right hN hs ha1lt (m := nb) (by rw [hstep1]; omega)
    rw [hstep1] at h2
    omega
  have hj : b.write_next_id ≠ b.write_next_id + 1 := by omega
  refine ⟨hvsA, hvsB, rfl, ?_, ?_⟩
  · simp [StreamBuffer.release_write, StreamBuffer.size, release_core, removeId,
      hw0, hj]
  · rw [Nat.mod_add_mod] at hstep2
    simp [StreamBuffer.release_write, StreamBuffer.size, release_core, removeId,
      hw0, hj, hstep2]

theorem claim_C1_witness :
    (((⟨[0, 0, 0, 0, 0], 0, 0, 0, 2, [], 0, [(0, 0), (1, 1)], 2⟩ :
        StreamBuffer Nat 5).release_write ⟨0, 0, 1⟩).write_nodes =
      removeId (⟨[0, 0, 0, 0, 0], 0, 0, 0, 2, [], 0, [(0, 0), (1, 1)], 2⟩ :
        StreamBuffer Nat 5).write_nodes 0 ∧
      ((⟨[0, 0, 0, 0, 0], 0, 0, 0, 2, [], 0, [(0, 0), (1, 1)], 2⟩ :
        StreamBuffer Nat 5).release_write ⟨0, 0, 1⟩).stop =
      (if (⟨[0, 0, 0, 0, 0], 0, 0, 0, 2, [], 0, [(0, 0), (1, 1)], 2⟩ :
          StreamBuffer Nat 5).write_nodes.head?.map Prod.fst = some 0 then
        match removeId (⟨[0, 0, 0, 0, 0], 0, 0, 0, 2, [], 0,
            [(0, 0), (1, 1)], 2⟩ : StreamBuffer Nat 5).write_nodes 0 with
        | [] => (⟨[0, 0, 0, 0, 0], 0, 0, 0, 2, [], 0, [(0, 0), (1, 1)], 2⟩ :
            StreamBuffer Nat 5).after_stop
        | q :: _ => q.2
      else (⟨[0, 0, 0, 0, 0], 0, 0, 0, 2, [], 0, [(0, 0), (1, 1)], 2⟩ :
          StreamBuffer Nat 5).stop)) ∧
    (((⟨[0, 0, 0, 0, 0], 1, 3, 0, 0, [(4, 1), (5, 2)], 6, [], 0⟩ :
        StreamBuffer Nat 5).release_read ⟨5, 2, 3⟩).read_nodes =
      removeId (⟨[0, 0, 0, 0, 0], 1, 3, 0, 0, [(4, 1), (5, 2)], 6, [], 0⟩ :
        StreamBuffer Nat 5).read_nodes 5 ∧
      ((⟨[0, 0, 0, 0, 0], 1, 3, 0, 0, [(4, 1), (5, 2)], 6, [], 0⟩ :
        StreamBuffer Nat 5).release_read ⟨5, 2, 3⟩).before_start =
      (if (⟨[0, 0, 0, 0, 0], 1, 3, 0, 0, [(4, 1), (5, 2)], 6, [], 0⟩ :
          StreamBuffer Nat 5).read_nodes.head?.map Prod.fst = some 5 then
        match removeId (⟨[0, 0, 0, 0, 0], 1, 3, 0, 0,
            [(4, 1), (5, 2)], 6, [], 0⟩ : StreamBuffer Nat 5).read_nodes 5 with
        | [] => (⟨[0, 0, 0, 0, 0], 1, 3, 0, 0, [(4, 1), (5, 2)], 6, [], 0⟩ :
            StreamBuffer Nat 5).start
        | q :: _ => q.2
      else (⟨[0, 0, 0, 0, 0], 1, 3, 0, 0, [(4, 1), (5, 2)], 6, [], 0⟩ :
          StreamBuffer Nat 5).before_start)) ∧
    (view_size 5 (⟨0, 0, 2⟩ : owning_view) = 2 ∧
      view_size 5 (⟨1, 2, 3⟩ : owning_view) = 1 ∧
      (⟨[0, 0, 0, 0, 0], 0, 0, 0, 3, [], 0, [(0, 0), (1, 2)], 2⟩ :
        StreamBuffer Nat 5).size =
        (StreamBuffer.init [0, 0, 0, 0, 0] : StreamBuffer Nat 5).size ∧
      ((⟨[0, 0, 0, 0, 0], 0, 0, 0, 3, [], 0, [(0, 0), (1, 2)], 2⟩ :
        StreamBuffer Nat 5).release_write ⟨1, 2, 3⟩).size =
        (StreamBuffer.init [0, 0, 0, 0, 0] : StreamBuffer Nat 5).size ∧
      (((⟨[0, 0, 0, 0, 0], 0, 0, 0, 3, [], 0, [(0, 0), (1, 2)], 2⟩ :
          StreamBuffer Nat 5).release_write ⟨1, 2, 3⟩).release_write
          ⟨0, 0, 2⟩).size =
        (StreamBuffer.init [0, 0, 0, 0, 0] : StreamBuffer Nat 5).size + 2 + 1) :=
  ⟨(claim_C1 (α := Nat) (N := 5)).1
      (⟨[0, 0, 0, 0, 0], 0, 0, 0, 2, [], 0, [(0, 0), (1, 1)], 2⟩ :
        StreamBuffer Nat 5) ⟨0, 0, 1⟩ (by decide),
   (claim_C1 (α := Nat) (N := 5)).2.1
      (⟨[0, 0, 0, 0, 0], 1, 3, 0, 0, [(4, 1), (5, 2)], 6, [], 0⟩ :
        StreamBuffer Nat 5) ⟨5, 2, 3⟩ (by decide),
   (claim_C1 (α := Nat) (N := 5)).2.2
      (StreamBuffer.init [0, 0, 0, 0, 0] : StreamBuffer Nat 5)
      (⟨[0, 0, 0, 0, 0], 0, 0, 0, 2, [], 0, [(0, 0)], 1⟩ : StreamBuffer Nat 5)
      (⟨[0, 0, 0, 0, 0], 0, 0, 0, 3, [], 0, [(0, 0), (1, 2)], 2⟩ :
        StreamBuffer Nat 5) 2 1 ⟨0, 0, 2⟩ ⟨1, 2, 3⟩
      (by decide) (by decide) (by decide) (by decide) (by decide)
      (by decide) (by decide)⟩

theorem mkViews_map_id : ∀ (ns : List Nat) (t j : Nat),
    (mkViews t j ns).map owning_view.id = List.range' j ns.length := by
  intro ns
  induction ns with
  | nil => intro t j; rfl
  | cons n ns ih =>
    intro t j
    rw [List.length_cons, List.range'_succ]
    simp only [mkViews, List.map_cons, List.cons.injEq]
    exact ⟨trivial, ih (t + n) (j + 1)⟩

theorem mkViews_pairs_fst (ns : List Nat) (t j : Nat) :
    ((mkViews t j ns).map (fun v => (owning_view.id v, owning_view.start v))).map
      Prod.fst = (mkViews t j ns).map owning_view.id := by
  simp [List.map_map, Function.comp]

theorem mkViews_nil_iff (ns : List Nat) (t j : Nat) :
    mkViews t j ns = [] ↔ ns = [] := by
  cases ns <;> simp [mkViews]

theorem getD_set_eq {α : Type} [Inhabited α] (l : List α) (p : Nat) (x : α)
    (h : p < l.length) : (l.set p x).getD p default = x := by
  simp [List.getD_eq_getElem?_getD, List.getElem?_set_self, h]

theorem getD_set_ne {α : Type} [Inhabited α] (l : List α) (p q : Nat) (x : α)
    (h : p ≠ q) : (l.set p x).getD q default = l.getD q default := by
  simp [List.getD_eq_getElem?_getD, List.getElem?_set_ne h]

theorem fill_from_storage {α : Type} {N : Nat} [Inhabited α] :
    ∀ (d : List α) (b : StreamBuffer α N) (v : owning_view) (i q : Nat),
    b.storage.length = N →
    v.start + i + d.length ≤ N →
    (fill_from b v i d).storage.getD q default =
      (if v.start + i ≤ q ∧ q < v.start + i + d.length then
        d.getD (q - (v.start + i)) default
      else b.storage.getD q default) := by
  intro d
  induction d with
  | nil =>
    intro b v i q hlen hle
    rw [show fill_from b v i ([] : List α) = b from rfl]
    rw [if_neg (by simp only [List.length_nil]; omega)]
  | cons x xs ih =>
    intro b v i q hlen hle
    rw [show fill_from b v i (x :: xs) = fill_from (view_set b v i x) v (i + 1) xs
      from rfl]
    have hlen2 : (view_set b v i x).storage.length = N := by
      simp [view_set, hlen]
    have hlen3 : v.start + i + (x :: xs).length ≤ N := hle
    simp only [List.length_cons] at hlen3
    have hle2 : v.start + (i + 1) + xs.length ≤ N := by omega
    rw [ih (view_set b v i x) v (i + 1) q hlen2 hle2]
    have hmod : (v.start + i) % N = v.start + i := Nat.mod_eq_of_lt (by omega)
    by_cases hq : q = v.start + i
    · subst hq
      rw [if_neg (by omega)]
      rw [if_pos (by simp only [List.length_cons]; omega)]
      simp only [view_set, hmod]
      rw [getD_set_eq _ _ _ (by rw [hlen]; omega)]
      simp
    · by_cases hin : v.start + (i + 1) ≤ q ∧ q < v.start + (i + 1) + xs.length
      · rw [if_pos hin]
        rw [if_pos (by simp only [List.length_cons]; omega)]
        have hidx : q - (v.start + i) = (q - (v.start + (i + 1))) + 1 := by omega
        rw [hidx]
        rfl
      · rw [if_neg hin]
        simp only [view_set, hmod]
        rw [getD_set_ne _ _ _ _ (Ne.symm hq)]
        by_cases houter : v.start + i ≤ q ∧ q < v.start + i + (x :: xs).length
        · exfalso
          simp only [List.length_cons] at houter
          omega
        · rw [if_neg houter]

theorem fill_from_length {α : Type} {N : Nat} :
    ∀ (d : List α) (b : StreamBuffer α N) (v : owning_view) (i : Nat),
    (fill_from b v i d).storage.length = b.storage.length := by
  intro d
  induction d with
  | nil => intro b v i; rfl
  | cons x xs ih =>
    intro b v i
    rw [show fill_from b v i (x :: xs) = fill_from (view_set b v i x) v (i + 1) xs
      from rfl]
    rw [ih]
    simp [view_set]

theorem fill_from_frame {α : Type} {N : Nat} :
    ∀ (d : List α) (b : StreamBuffer α N) (v : owning_view) (i : Nat),
    (fill_from b v i d).before_start = b.before_start ∧
    (fill_from b v i d).start = b.start ∧
    (fill_from b v i d).stop = b.stop ∧
    (fill_from b v i d).after_stop = b.after_stop ∧
    (fill_from b v i d).read_nodes = b.read_nodes ∧
    (fill_from b v i d).read_next_id = b.read_next_id ∧
    (fill_from b v i d).write_nodes = b.write_nodes ∧
    (fill_from b v i d).write_next_id = b.write_next_id := by
  intro d
  induction d with
  | nil => intro b v i; exact ⟨rfl, rfl, rfl, rfl, rfl, rfl, rfl, rfl⟩
  | cons x xs ih =>
    intro b v i
    exact ih (view_set b v i x) v (i + 1)

theorem fillAll_length {α : Type} {N : Nat} :
    ∀ (vs : List owning_view) (ds : List (List α)) (b : StreamBuffer α N),
    (fillAll b vs ds).storage.length = b.storage.length := by
  intro vs
  induction vs with
  | nil => intro ds b; cases ds <;> rfl
  | cons v vs ih =>
    intro ds b
    cases ds with
    | nil => rfl
    | cons d ds =>
      rw [show fillAll b (v :: vs) (d :: ds) = fillAll (fill b v d) vs ds from rfl]
      rw [ih]
      exact fill_from_length d b v 0

theorem fillAll_frame {α : Type} {N : Nat} :
    ∀ (vs : List owning_view) (ds : List (List α)) (b : StreamBuffer α N),
    (fillAll b vs ds).before_start = b.before_start ∧
    (fillAll b vs ds).start = b.start ∧
    (fillAll b vs ds).stop = b.stop ∧
    (fillAll b vs ds).after_stop = b.after_stop ∧
    (fillAll b vs ds).read_nodes = b.read_nodes ∧
    (fillAll b vs ds).read_next_id = b.read_next_id ∧
    (fillAll b vs ds).write_nodes = b.write_nodes ∧
    (fillAll b vs ds).write_next_id = b.write_next_id := by
  intro vs
  induction vs with
  | nil =>
    intro ds b
    cases ds <;> exact ⟨rfl, rfl, rfl, rfl, rfl, rfl, rfl, rfl⟩
  | cons v vs ih =>
    intro ds b
    cases ds with
    | nil => exact ⟨rfl, rfl, rfl, rfl, rfl, rfl, rfl, rfl⟩
    | cons d ds =>
      have h1 := ih ds (fill b v d)
      have h2 := fill_from_frame d b v 0
      rw [show fillAll b (v :: vs) (d :: ds) = fillAll (fill b v d) vs ds from rfl]
      exact ⟨h1.1.trans h2.1, h1.2.1.trans h2.2.1, h1.2.2.1.trans h2.2.2.1,
        h1.2.2.2.1.trans h2.2.2.2.1, h1.2.2.2.2.1.trans h2.2.2.2.2.1,
        h1.2.2.2.2.2.1.trans h2.2.2.2.2.2.1,
        h1.2.2.2.2.2.2.1.trans h2.2.2.2.2.2.2.1,
        h1.2.2.2.2.2.2.2.trans h2.2.2.2.2.2.2.2⟩

theorem getD_append_left {α : Type} [Inhabited α] (l l2 : List α) (n : Nat)
    (h : n < l.length) : (l ++ l2).getD n default = l.getD n default := by
  simp [List.getD_eq_getElem?_getD, List.getElem?_append, h]

theorem getD_append_right {α : Type} [Inhabited α] (l l2 : List α) (n : Nat)
    (h : l.length ≤ n) :
    (l ++ l2).getD n default = l2.getD (n - l.length) default := by
  simp [List.getD_eq_getElem?_getD, List.getElem?_append_right h]

theorem fillAll_storage {α : Type} {N : Nat} [Inhabited α] :
    ∀ (ds : List (List α)) (b : StreamBuffer α N) (t j q : Nat),
    b.storage.length = N →
    t + (ds.map List.length).sum ≤ N →
    (fillAll b (mkViews t j (ds.map List.length)) ds).storage.getD q default =
      (if t ≤ q ∧ q < t + (ds.map List.length).sum then
        ds.flatten.getD (q - t) default
      else b.storage.getD q default) := by
  intro ds
  induction ds with
  | nil =>
    intro b t j q hlen hle
    rw [show fillAll b (mkViews t j (List.map List.length [])) ([] : List (List α))
      = b from rfl]
    rw [if_neg (by simp only [List.map_nil, List.sum_nil]; omega)]
  | cons d ds ih =>
    intro b t j q hlen hle
    simp only [List.map_cons, List.sum_cons] at hle
    rw [show fillAll b (mkViews t j (List.map List.length (d :: ds))) (d :: ds) =
      fillAll (fill b ⟨j, t, t + d.length⟩ d)
        (mkViews (t + d.length) (j + 1) (List.map List.length ds)) ds from rfl]
    have hlen2 : (fill b ⟨j, t, t + d.length⟩ d).storage.length = N := by
      unfold fill
      rw [fill_from_length]
      exact hlen
    rw [ih (fill b ⟨j, t, t + d.length⟩ d) (t + d.length) (j + 1) q hlen2 (by omega)]
    have hfs : (fill b ⟨j, t, t + d.length⟩ d).storage.getD q default =
        (if t ≤ q ∧ q < t + d.length then d.getD (q - t) default
        else b.storage.getD q default) := by
      unfold fill
      rw [fill_from_storage d b ⟨j, t, t + d.length⟩ 0 q hlen (by simp; omega)]
      simp only [Nat.add_zero]
    rw [hfs]
    rw [show (d :: ds).flatten = d ++ ds.flatten from rfl]
    by_cases h1 : t + d.length ≤ q ∧ q < t + d.length + (ds.map List.length).sum
    · have hc : t ≤ q ∧ q < t + (List.map List.length (d :: ds)).sum := by
        simp only [List.map_cons, List.sum_cons]
        omega
      rw [if_pos h1, if_pos hc]
      rw [getD_append_right d ds.flatten (q - t) (by omega)]
      rw [Nat.sub_sub]
    · rw [if_neg h1]
      by_cases h2 : t ≤ q ∧ q < t + d.length
      · have hc : t ≤ q ∧ q < t + (List.map List.length (d :: ds)).sum := by
          simp only [List.map_cons, List.sum_cons]
          omega
        rw [if_pos h2, if_pos hc]
        rw [getD_append_left d ds.flatten (q - t) (by omega)]
      · have hc : ¬(t ≤ q ∧ q < t + (List.map List.length (d :: ds)).sum) := by
          simp only [List.map_cons, List.sum_cons]
          omega
        rw [if_neg h2, if_neg hc]

theorem prepareAll_spec {α : Type} {N : Nat} :
    ∀ (ns : List Nat) (b : StreamBuffer α N),
    b.before_start = 0 →
    b.after_stop + ns.sum + 1 ≤ N →
    prepareAll b ns = some
      ({ b with
          write_nodes := b.write_nodes ++
            (mkViews b.after_stop b.write_next_id ns).map
              (fun v => (owning_view.id v, owning_view.start v)),
          write_next_id := b.write_next_id + ns.length,
          after_stop := b.after_stop + ns.sum },
        mkViews b.after_stop b.write_next_id ns) := by
  intro ns
  induction ns with
  | nil =>
    intro b hbs hsum
    show some (b, []) = _
    simp [mkViews]
  | cons n ns ih =>
    intro b hbs hsum
    have hsums : b.after_stop + (n + ns.sum) + 1 ≤ N := by
      simpa using hsum
    have hok : ¬ n > b.write_available := by
      unfold StreamBuffer.write_available
      rw [hbs]
      unfold get_distance
      split
      · omega
      · omega
    have hmod : (b.after_stop + n) % N = b.after_stop + n :=
      Nat.mod_eq_of_lt (by omega)
    have hprep : b.prepare n = some
        ({ b with
            write_nodes := b.write_nodes ++ [(b.write_next_id, b.after_stop)],
            write_next_id := b.write_next_id + 1,
            after_stop := b.after_stop + n },
          ⟨b.write_next_id, b.after_stop, b.after_stop + n⟩) := by
      unfold StreamBuffer.prepare
      rw [if_neg hok, hmod]
    simp only [prepareAll, hprep]
    rw [ih { b with
        write_nodes := b.write_nodes ++ [(b.write_next_id, b.after_stop)],
        write_next_id := b.write_next_id + 1,
        after_stop := b.after_stop + n }
      (show b.before_start = 0 from hbs)
      (show b.after_stop + n + ns.sum + 1 ≤ N by omega)]
    simp only []
    simp only [Option.some.injEq, Prod.mk.injEq]
    constructor
    · simp only [StreamBuffer.mk.injEq]
      refine ⟨trivial, trivial, trivial, trivial, ?_, trivial, trivial, ?_, ?_⟩
      · simp only [List.sum_cons]
        omega
      · rw [show mkViews b.after_stop b.write_next_id (n :: ns) =
          ⟨b.write_next_id, b.after_stop, b.after_stop + n⟩ ::
            mkViews (b.after_stop + n) (b.write_next_id + 1) ns from rfl]
        simp [List.append_assoc]
      · simp only [List.length_cons]
        omega
    · rfl

theorem release_write_empty_cond {α : Type} {N : Nat} (b : StreamBuffer α N)
    (v : owning_view) (hne : b.write_nodes ≠ []) :
    (b.release_write v).write_nodes = [] →
    (b.release_write v).stop = (b.release_write v).after_stop := by
  unfold StreamBuffer.release_write
  cases hn : b.write_nodes with
  | nil => exact absurd hn hne
  | cons p rest =>
    simp only [release_core]
    by_cases hpi : p.1 = v.id
    · rw [if_pos hpi]
      cases rest with
      | nil => intro _; rfl
      | cons q rest2 => intro h; simp at h
    · rw [if_neg hpi]
      intro h
      simp at h

theorem releaseAll_perm {α : Type} {N : Nat} :
    ∀ (rs vs : List owning_view) (b : StreamBuffer α N),
    b.write_nodes.map Prod.fst = vs.map owning_view.id →
    (vs.map owning_view.id).Nodup →
    rs.Perm vs →
    (b.write_nodes = [] → b.stop = b.after_stop) →
    releaseAll b rs = { b with write_nodes := [], stop := b.after_stop } := by
  intro rs
  induction rs with
  | nil =>
    intro vs b hmap hnd hperm hcond
    have hvs : vs = [] := hperm.symm.eq_nil
    subst hvs
    have hnodes : b.write_nodes = [] := by simpa using hmap
    have hstop : b.stop = b.after_stop := hcond hnodes
    obtain ⟨sg, bs, st, sp, asp, rn, ri, wn, wi⟩ := b
    simp only at hnodes hstop
    subst hnodes hstop
    rfl
  | cons r rs' ih =>
    intro vs b hmap hnd hperm hcond
    have hrvs : r ∈ vs := hperm.subset (List.mem_cons_self r rs')
    obtain ⟨pre, post, hsplit⟩ := List.append_of_mem hrvs
    subst hsplit
    have hperm' : rs'.Perm (pre ++ post) :=
      (hperm.trans List.perm_middle).cons_inv
    have hmap' : (b.release_write r).write_nodes.map Prod.fst =
        (pre ++ post).map owning_view.id := by
      show (release_core b.write_nodes b.stop b.after_stop r.id).1.map Prod.fst = _
      exact release_core_ids pre b.write_nodes hmap hnd
    have hsubl : (pre ++ post).Sublist (pre ++ r :: post) :=
      (List.sublist_cons_self r post).append_left pre
    have hnd' : ((pre ++ post).map owning_view.id).Nodup :=
      hnd.sublist (hsubl.map owning_view.id)
    have hnodes_ne : b.write_nodes ≠ [] := by
      intro h
      rw [h] at hmap
      simp at hmap
    have hcond' : (b.release_write r).write_nodes = [] →
        (b.release_write r).stop = (b.release_write r).after_stop :=
      release_write_empty_cond b r hnodes_ne
    have hres := ih (pre ++ post) (b.release_write r) hmap' hnd' hperm' hcond'
    show releaseAll (b.release_write r) rs' = _
    rw [hres]
    exact rfl

theorem range_map_getD {α : Type} [Inhabited α] :
    ∀ l : List α,
    (List.range l.length).map (fun i => l.getD i default) = l := by
  intro l
  induction l with
  | nil => rfl
  | cons x xs ih =>
    rw [List.length_cons, List.range_succ_eq_map, List.map_cons, List.map_map]
    congr 1

theorem gd_zero_left {N T : Nat} : get_distance N 0 T = T := by
  unfold get_distance; simp

theorem read_back {α : Type} [Inhabited α] {N : Nat} (hN : 0 < N)
    (b : StreamBuffer α N) (T : Nat) (l : List α)
    (hb1 : b.start = 0) (hb2 : b.stop = T) (hT : T < N) (hl : l.length = T)
    (hq : ∀ q, q < T → b.storage.getD q default = l.getD q default) :
    view_to_list (read_all b).1 (read_all b).2 = l := by
  have hra : b.read_available = T := by
    unfold StreamBuffer.read_available
    rw [hb1, hb2]
    exact gd_zero_left
  show (List.range (view_size N
      ⟨b.read_next_id, b.start, (b.start + b.read_available) % N⟩)).map
      (fun i => view_get
        { b with
          read_nodes := b.read_nodes ++ [(b.read_next_id, b.start)],
          read_next_id := b.read_next_id + 1,
          start := (b.start + b.read_available) % N }
        ⟨b.read_next_id, b.start, (b.start + b.read_available) % N⟩ i) = l
  unfold view_size view_get
  simp only [hra, hb1, Nat.zero_add]
  rw [Nat.mod_eq_of_lt hT]
  rw [gd_zero_left]
  rw [← hl]
  refine Eq.trans ?_ (range_map_getD l)
  refine List.map_congr_left ?_
  intro i hi
  rw [List.mem_range] at hi
  rw [Nat.mod_eq_of_lt (by omega)]
  exact hq i (by omega)

/-- C4: for any sequence of write leases whose total size is at most
N - 1, acquired in order from a fresh buffer, each filled in place with
its data block, and released in an arbitrary order (any permutation of
the leases), reading back the published data in order yields exactly
the concatenation of the written blocks in write-acquire order. -/
theorem claim_C4 {α : Type} [Inhabited α] {N : Nat} (hN : 0 < N)
    (s : List α) (hs : s.length = N) (ds : List (List α))
    (hsum : (ds.map List.length).sum + 1 ≤ N) (rs : List owning_view)
    (hperm : rs.Perm (mkViews 0 0 (ds.map List.length))) :
    ∃ p : StreamBuffer α N × List owning_view,
      prepareAll (StreamBuffer.init s) (ds.map List.length) = some p ∧
      p.2 = mkViews 0 0 (ds.map List.length) ∧
      view_to_list (read_all (releaseAll (fillAll p.1 p.2 ds) rs)).1
        (read_all (releaseAll (fillAll p.1 p.2 ds) rs)).2 = ds.flatten := by
  have hspec := prepareAll_spec (ds.map List.length)
    (StreamBuffer.init s : StreamBuffer α N) rfl
    (by simp only [StreamBuffer.init]; omega)
  refine ⟨_, hspec, rfl, ?_⟩
  simp only [StreamBuffer.init, List.nil_append, Nat.zero_add]
  set VS : List owning_view := mkViews 0 0 (List.map List.length ds) with hVSdef
  set BP : StreamBuffer α N := (⟨s, 0, 0, 0, (List.map List.length ds).sum, [], 0,
    VS.map (fun v => (owning_view.id v, owning_view.start v)),
    (List.map List.length ds).length⟩ : StreamBuffer α N) with hBPdef
  have hpermVS : rs.Perm VS := hperm
  obtain ⟨hf1, hf2, hf3, hf4, hf5, hf6, hf7, hf8⟩ := fillAll_frame VS ds BP
  have hmapw : (fillAll BP VS ds).write_nodes.map Prod.fst =
      VS.map owning_view.id := by
    rw [hf7]
    show (VS.map (fun v => (owning_view.id v, owning_view.start v))).map
      Prod.fst = VS.map owning_view.id
    rw [hVSdef]
    exact mkViews_pairs_fst (List.map List.length ds) 0 0
  have hnodup : (VS.map owning_view.id).Nodup := by
    rw [hVSdef, mkViews_map_id]
    exact List.nodup_range' 0 (List.map List.length ds).length 1 (by omega)
  have hcond : (fillAll BP VS ds).write_nodes = [] →
      (fillAll BP VS ds).stop = (fillAll BP VS ds).after_stop := by
    intro h
    rw [hf7] at h
    have h2 : VS.map (fun v => (owning_view.id v, owning_view.start v)) = [] := h
    have hVSnil : VS = [] := by simpa using h2
    have hlens : List.map List.length ds = [] :=
      (mkViews_nil_iff (List.map List.length ds) 0 0).mp (hVSdef ▸ hVSnil)
    rw [hf3, hf4]
    show (0 : Nat) = (List.map List.length ds).sum
    rw [hlens]
    rfl
  have hrel := releaseAll_perm rs VS (fillAll BP VS ds) hmapw hnodup hpermVS hcond
  rw [hrel]
  apply read_back hN _ ((List.map List.length ds).sum) ds.flatten
  · exact hf2
  · exact hf4
  · omega
  · simp [List.length_flatten]
  · intro q hq2
    have hfs := fillAll_storage ds BP 0 0 q hs (by omega)
    rw [← hVSdef] at hfs
    rw [if_pos (by omega)] at hfs
    show (fillAll BP VS ds).storage.getD q default = ds.flatten.getD q default
    rw [hfs]
    simp

theorem claim_C4_witness :
    0 < 4 ∧ ([9, 9, 9, 9] : List Nat).length = 4 ∧
    (([[1, 2], [3]] : List (List Nat)).map List.length).sum + 1 ≤ 4 ∧
    ([⟨1, 2, 3⟩, ⟨0, 0, 2⟩] : List owning_view).Perm
      (mkViews 0 0 (([[1, 2], [3]] : List (List Nat)).map List.length)) ∧
    (∃ p : StreamBuffer Nat 4 × List owning_view,
      prepareAll (StreamBuffer.init [9, 9, 9, 9])
        (([[1, 2], [3]] : List (List Nat)).map List.length) = some p ∧
      p.2 = mkViews 0 0 (([[1, 2], [3]] : List (List Nat)).map List.length) ∧
      view_to_list
        (read_all (releaseAll (fillAll p.1 p.2 [[1, 2], [3]])
          [⟨1, 2, 3⟩, ⟨0, 0, 2⟩])).1
        (read_all (releaseAll (fillAll p.1 p.2 [[1, 2], [3]])
          [⟨1, 2, 3⟩, ⟨0, 0, 2⟩])).2 = ([[1, 2], [3]] : List (List Nat)).flatten) :=
  ⟨by decide, by decide, by decide, by decide,
    claim_C4 (by decide) [9, 9, 9, 9] (by decide) [[1, 2], [3]] (by decide)
      [⟨1, 2, 3⟩, ⟨0, 0, 2⟩] (by decide)⟩

end Streambuf
